import Mathlib

/-!
Verification of the GEDCOM X import pipeline of the family-tree service
(`app/src/routes.py`): the person normalizers `_extract_name` / `_extract_birth`,
the reference resolver `_gx_ref_to_id`, the relationship-type canonicalizer and
the import orchestrator `import_gedcomx`, together with an idempotent-upsert
model of the graph store they write to.

JSON values decoded from the request body are modelled by the inductive `J`
(Python `None` and JSON `null` coincide, as they do after `json` decoding).
Python attribute/subscript errors are modelled by `Except PyErr`.  Python
string predicates (`str.upper`, `str.lower`, `str.isalnum`, `str.isidentifier`)
are Unicode-aware; they are modelled faithfully on ASCII and on the Latin-1
letters U+00C0–U+00FF (minus the two signs × U+00D7 and ÷ U+00F7); outside that
fragment the case maps are the identity and the classifiers return false.
All concrete inputs appearing in theorems below stay inside the fragment.
-/

namespace FamilyTree

/-- JSON values as decoded by `json` / FastAPI from the request body. -/
inductive J where
  | null : J
  | bool (b : Bool) : J
  | num (n : Int) : J
  | str (s : String) : J
  | arr (xs : List J) : J
  | obj (kvs : List (String × J)) : J
deriving Repr

mutual

/-- Decidable equality of JSON values (written by hand: `deriving` does not
handle the nested inductive). -/
def J.decEq : (a b : J) → Decidable (a = b)
  | .null, .null => .isTrue rfl
  | .bool a, .bool b =>
    if h : a = b then .isTrue (congrArg J.bool h) else .isFalse (fun hh => h (J.bool.inj hh))
  | .num a, .num b =>
    if h : a = b then .isTrue (congrArg J.num h) else .isFalse (fun hh => h (J.num.inj hh))
  | .str a, .str b =>
    if h : a = b then .isTrue (congrArg J.str h) else .isFalse (fun hh => h (J.str.inj hh))
  | .arr xs, .arr ys =>
    match J.decEqList xs ys with
    | .isTrue h => .isTrue (congrArg J.arr h)
    | .isFalse h => .isFalse (fun hh => h (J.arr.inj hh))
  | .obj xs, .obj ys =>
    match J.decEqKVs xs ys with
    | .isTrue h => .isTrue (congrArg J.obj h)
    | .isFalse h => .isFalse (fun hh => h (J.obj.inj hh))
  | .null, .bool _ => .isFalse (fun h => J.noConfusion h)
  | .null, .num _ => .isFalse (fun h => J.noConfusion h)
  | .null, .str _ => .isFalse (fun h => J.noConfusion h)
  | .null, .arr _ => .isFalse (fun h => J.noConfusion h)
  | .null, .obj _ => .isFalse (fun h => J.noConfusion h)
  | .bool _, .null => .isFalse (fun h => J.noConfusion h)
  | .bool _, .num _ => .isFalse (fun h => J.noConfusion h)
  | .bool _, .str _ => .isFalse (fun h => J.noConfusion h)
  | .bool _, .arr _ => .isFalse (fun h => J.noConfusion h)
  | .bool _, .obj _ => .isFalse (fun h => J.noConfusion h)
  | .num _, .null => .isFalse (fun h => J.noConfusion h)
  | .num _, .bool _ => .isFalse (fun h => J.noConfusion h)
  | .num _, .str _ => .isFalse (fun h => J.noConfusion h)
  | .num _, .arr _ => .isFalse (fun h => J.noConfusion h)
  | .num _, .obj _ => .isFalse (fun h => J.noConfusion h)
  | .str _, .null => .isFalse (fun h => J.noConfusion h)
  | .str _, .bool _ => .isFalse (fun h => J.noConfusion h)
  | .str _, .num _ => .isFalse (fun h => J.noConfusion h)
  | .str _, .arr _ => .isFalse (fun h => J.noConfusion h)
  | .str _, .obj _ => .isFalse (fun h => J.noConfusion h)
  | .arr _, .null => .isFalse (fun h => J.noConfusion h)
  | .arr _, .bool _ => .isFalse (fun h => J.noConfusion h)
  | .arr _, .num _ => .isFalse (fun h => J.noConfusion h)
  | .arr _, .str _ => .isFalse (fun h => J.noConfusion h)
  | .arr _, .obj _ => .isFalse (fun h => J.noConfusion h)
  | .obj _, .null => .isFalse (fun h => J.noConfusion h)
  | .obj _, .bool _ => .isFalse (fun h => J.noConfusion h)
  | .obj _, .num _ => .isFalse (fun h => J.noConfusion h)
  | .obj _, .str _ => .isFalse (fun h => J.noConfusion h)
  | .obj _, .arr _ => .isFalse (fun h => J.noConfusion h)

def J.decEqList : (xs ys : List J) → Decidable (xs = ys)
  | [], [] => .isTrue rfl
  | [], _ :: _ => .isFalse (fun h => List.noConfusion h)
  | _ :: _, [] => .isFalse (fun h => List.noConfusion h)
  | x :: xs, y :: ys =>
    match J.decEq x y with
    | .isFalse h => .isFalse (fun hh => h (by injection hh))
    | .isTrue h1 =>
      match J.decEqList xs ys with
      | .isTrue h2 => .isTrue (by rw [h1, h2])
      | .isFalse h2 => .isFalse (fun hh => h2 (by injection hh))

def J.decEqKVs : (xs ys : List (String × J)) → Decidable (xs = ys)
  | [], [] => .isTrue rfl
  | [], _ :: _ => .isFalse (fun h => List.noConfusion h)
  | _ :: _, [] => .isFalse (fun h => List.noConfusion h)
  | (k, v) :: xs, (k2, v2) :: ys =>
    if hk : k = k2 then
      match J.decEq v v2 with
      | .isFalse h => .isFalse (fun hh => by
          apply h
          have := (List.cons.inj hh).1
          exact congrArg Prod.snd this)
      | .isTrue h1 =>
        match J.decEqKVs xs ys with
        | .isTrue h2 => .isTrue (by rw [hk, h1, h2])
        | .isFalse h2 => .isFalse (fun hh => h2 (by injection hh))
    else
      .isFalse (fun hh => hk (congrArg Prod.fst (List.cons.inj hh).1))

end

instance : DecidableEq J := J.decEq

/-- Python exception kinds that the pipeline can raise. -/
inductive PyErr where
  | attrErr : PyErr
  | typeErr : PyErr
  | keyErr : PyErr
  | idxErr : PyErr
deriving DecidableEq, Repr

/-- Python truthiness of a decoded JSON value. -/
def pyTruthy : J → Bool
  | .null => false
  | .bool b => b
  | .num n => n != 0
  | .str s => s != ""
  | .arr xs => !xs.isEmpty
  | .obj kvs => !kvs.isEmpty

def isObjB : J → Bool
  | .obj _ => true
  | _ => false

def isArrB : J → Bool
  | .arr _ => true
  | _ => false

def isStrB : J → Bool
  | .str _ => true
  | _ => false

/-- Field lookup on an object; `.null` for a missing key or a non-object
(used by the specification-side definitions and the shape predicates). -/
def objGet : J → String → J
  | .obj kvs, k => ((kvs.lookup k).getD .null)
  | _, _ => .null

def hasKeyB : J → String → Bool
  | .obj kvs, k => (kvs.lookup k).isSome
  | _, _ => false

/-- First element of an array, `.null` otherwise (specification-side helper). -/
def headJ : J → J
  | .arr (x :: _) => x
  | _ => .null

def arrElems : J → List J
  | .arr xs => xs
  | _ => []

/-- Python `d.get(k)`: `AttributeError` on a non-dict, `None` for a missing key. -/
def dictGet : J → String → Except PyErr J
  | .obj kvs, k => .ok ((kvs.lookup k).getD .null)
  | _, _ => .error .attrErr

/-- Python `d.get(k, default)`. -/
def dictGetD : J → String → J → Except PyErr J
  | .obj kvs, k, d => .ok ((kvs.lookup k).getD d)
  | _, _, _ => .error .attrErr

/-- Python `x[0]`: first element of a list, first character of a string;
`KeyError` on a dict (string keys only after JSON decoding), `TypeError`
on scalars. -/
def index0 : J → Except PyErr J
  | .arr (x :: _) => .ok x
  | .arr [] => .error .idxErr
  | .str s => if s = "" then .error .idxErr else .ok (.str (s.take 1))
  | .obj _ => .error .keyErr
  | _ => .error .typeErr

/-- Python `for x in v`: elements of a list, characters of a string, keys of a
dict; `TypeError` on scalars. -/
def iterElems : J → Except PyErr (List J)
  | .arr xs => .ok xs
  | .str s => .ok (s.data.map (fun c => .str (String.mk [c])))
  | .obj kvs => .ok (kvs.map (fun kv => .str kv.fst))
  | _ => .error .typeErr

/-! ### Python string primitives (ASCII + Latin-1 letter fragment) -/

/-- The Latin-1 letters U+00C0–U+00FF minus the signs × (U+00D7) and ÷ (U+00F7).
Python classifies all of them as alphabetic (hence alphanumeric) and as valid
identifier characters. -/
def latin1Letter (c : Char) : Bool :=
  (0xC0 ≤ c.toNat && c.toNat ≤ 0xFF) && c.toNat != 0xD7 && c.toNat != 0xF7

/-- Python `str.upper`, per character: full ASCII case map, plus the Latin-1
lowercase letters à–þ (minus ÷); other characters are left unchanged.  (Outside
this fragment Python may differ, e.g. ß ↦ "SS"; no result below depends on
those characters.) -/
def pyUpper (c : Char) : Char :=
  if c.toNat < 128 then c.toUpper
  else if (0xE0 ≤ c.toNat && c.toNat ≤ 0xFE) && c.toNat != 0xF7 then
    Char.ofNat (c.toNat - 0x20)
  else c

/-- Python `str.lower`, per character: ASCII plus the Latin-1 uppercase letters
À–Þ (minus ×); other characters are left unchanged. -/
def pyLower (c : Char) : Char :=
  if c.toNat < 128 then c.toLower
  else if (0xC0 ≤ c.toNat && c.toNat ≤ 0xDE) && c.toNat != 0xD7 then
    Char.ofNat (c.toNat + 0x20)
  else c

/-- Python `ch.isalnum()` on the modelled fragment: ASCII alphanumerics and the
Latin-1 letters. -/
def pyIsAlnum (c : Char) : Bool :=
  (c.toNat < 128 && c.isAlphanum) || latin1Letter c

/-- A character Python accepts as the first character of an identifier
(fragment: ASCII letters, underscore, Latin-1 letters). -/
def pyIdentStart (c : Char) : Bool :=
  (c.toNat < 128 && (c.isAlpha || c = '_')) || latin1Letter c

/-- A character Python accepts after the first character of an identifier. -/
def pyIdentCont (c : Char) : Bool :=
  pyIdentStart c || (c.toNat < 128 && c.isDigit)

/-- Python `s.isidentifier()` on the modelled fragment. -/
def pyIsIdentifier (s : String) : Bool :=
  match s.data with
  | [] => false
  | c :: cs => pyIdentStart c && cs.all pyIdentCont

def pyUpperS (s : String) : String := ⟨s.data.map pyUpper⟩

def pyLowerS (s : String) : String := ⟨s.data.map pyLower⟩

/-- Python `s.endswith(suffix)`. -/
def pyEndsWith (s suffix : String) : Bool := suffix.data.isSuffixOf s.data

/-- Python `s.split(sep)` for a one-character separator, on the character list:
`splitChar sep cs` is never empty, and `"".split(sep) == [""]`. -/
def splitChar (sep : Char) : List Char → List (List Char)
  | [] => [[]]
  | c :: cs =>
    match splitChar sep cs with
    | [] => [[c]]
    | h :: t => if c = sep then [] :: h :: t else (c :: h) :: t

mutual

/-- Python `str(x)` of a decoded JSON value.  Containers are rendered
recursively as in `repr`; the quoting of strings inside containers is
simplified (no escaping), which is harmless here: the only property used about
container renderings is their final character (`]` or the closing brace). -/
def pyStr : J → String
  | .null => "None"
  | .bool true => "True"
  | .bool false => "False"
  | .num n => toString n
  | .str s => s
  | .arr xs => "[" ++ String.intercalate ", " (pyReprList xs) ++ "]"
  | .obj kvs => "\x7b" ++ String.intercalate ", " (pyReprKVs kvs) ++ "\x7d"

/-- Python `repr(x)` applied to each element of a list (strings quoted). -/
def pyReprList : List J → List String
  | [] => []
  | .str s :: xs => ("\x27" ++ s ++ "\x27") :: pyReprList xs
  | x :: xs => pyStr x :: pyReprList xs

/-- Python `repr(k) + ": " + repr(v)` for each dict entry. -/
def pyReprKVs : List (String × J) → List String
  | [] => []
  | (k, v) :: xs =>
    ("\x27" ++ k ++ "\x27" ++ ": " ++
      (match v with
       | .str s => "\x27" ++ s ++ "\x27"
       | w => pyStr w)) :: pyReprKVs xs

end

/-! ### The person normalizers (`_extract_name`, `_extract_birth`) -/

/-- The final line of `_extract_name`:
`person.get("display", {}).get("name") or person.get("id") or "Unknown"`. -/
def fallbackName (person : J) : Except PyErr J :=
  match dictGetD person "display" (.obj []) with
  | .error e => .error e
  | .ok disp =>
    match dictGet disp "name" with
    | .error e => .error e
    | .ok dn =>
      if pyTruthy dn then .ok dn
      else
        match dictGet person "id" with
        | .error e => .error e
        | .ok pid => if pyTruthy pid then .ok pid else .ok (.str "Unknown")

/-- `_extract_name` from `app/src/routes.py`. -/
def extract_name (person : J) : Except PyErr J :=
  match dictGet person "names" with
  | .error e => .error e
  | .ok namesRaw =>
    let names := if pyTruthy namesRaw then namesRaw else .arr []
    if pyTruthy names then
      match index0 names with
      | .error e => .error e
      | .ok n0 =>
        match dictGet n0 "nameForms" with
        | .error e => .error e
        | .ok formsRaw =>
          let forms := if pyTruthy formsRaw then formsRaw else .arr []
          if pyTruthy forms then
            match index0 forms with
            | .error e => .error e
            | .ok f0 =>
              match dictGet f0 "fullText" with
              | .error e => .error e
              | .ok full => if pyTruthy full then .ok full else fallbackName person
          else fallbackName person
    else fallbackName person

/-- The loop body of `_extract_birth`: scan the facts in order, and on the
first fact whose `str(type).lower()` ends with `"/birth"` return
`(fact.get("date") or {}).get("original")`. -/
def birthScan : List J → Except PyErr J
  | [] => .ok .null
  | fact :: rest =>
    match dictGetD fact "type" (.str "") with
    | .error e => .error e
    | .ok t =>
      if pyEndsWith (pyLowerS (pyStr t)) "/birth" then
        match dictGet fact "date" with
        | .error e => .error e
        | .ok dRaw => dictGet (if pyTruthy dRaw then dRaw else .obj []) "original"
      else birthScan rest

/-- `_extract_birth` from `app/src/routes.py`. -/
def extract_birth (person : J) : Except PyErr J :=
  match dictGet person "facts" with
  | .error e => .error e
  | .ok factsRaw =>
    match iterElems (if pyTruthy factsRaw then factsRaw else .arr []) with
    | .error e => .error e
    | .ok elems => birthScan elems

/-! ### The reference resolver (`_gx_ref_to_id`) -/

/-- `_gx_ref_to_id` from `app/src/routes.py`:
`ref[1:] if ref and ref.startswith('#') else ref`.
On a truthy non-string, `ref.startswith` raises `AttributeError`; a falsy
value short-circuits `and` and is returned unchanged. -/
def gx_ref_to_id : J → Except PyErr J
  | .str s => .ok (.str (if s != "" && s.startsWith "#" then s.drop 1 else s))
  | v => if pyTruthy v then .error .attrErr else .ok v

/-! ### The relationship-type canonicalizer (routes.py lines 168–179) -/

/-- `gx_type.split('/')[-1].upper()`: the last `/`-separated segment of the
type string, upper-cased. -/
def canonTok (s : String) : String :=
  ⟨((splitChar '/' s.data).getLastD []).map pyUpper⟩

/-- Line 176: `rel_type = (t or "RELATED").upper()`. -/
def sanitizeBase (t : String) : String :=
  pyUpperS (if t = "" then "RELATED" else t)

/-- Line 177: `''.join(ch if ch.isalnum() else '_' for ch in rel_type)`. -/
def sanitizeMap (t : String) : String :=
  ⟨(sanitizeBase t).data.map (fun c => if pyIsAlnum c then c else '_')⟩

/-- Lines 175–179: `(t or "RELATED").upper()`, then every non-alphanumeric
character replaced by `_`, then discarded for `"RELATED"` if the result is not
an identifier. -/
def sanitize (t : String) : String :=
  if pyIsIdentifier (sanitizeMap t) then sanitizeMap t else "RELATED"

/-- The `if/elif/else` chain of lines 170–179 mapping the upper-cased token to
the stored relationship label. -/
def canonLabel (t : String) : String :=
  if t = "COUPLE" then "COUPLE"
  else if t = "PARENTCHILD" || t = "PARENT_CHILD" then "PARENT_CHILD"
  else sanitize t

/-- The full canonicalization of a string `gx_type` (lines 168–179):
`t = gx_type.split('/')[-1].upper() if gx_type else ""` followed by the label
chain. -/
def canonicalize (gx_type : String) : String :=
  canonLabel (if gx_type != "" then canonTok gx_type else "")

/-! ### The import orchestrator (`import_gedcomx`) -/

/-- One person upsert issued to the store:
`MERGE (n:Person {id}) SET name, birth, gx_id` with `gx_id = id`. -/
structure PersonUp where
  id : J
  name : J
  birth : J
deriving DecidableEq, Repr

/-- One relationship upsert issued to the store:
`MATCH (a {id: src}), (b {id: dst}) MERGE (a)-[rel:lbl]->(b) SET rel.gx_type`. -/
structure EdgeUp where
  src : J
  dst : J
  lbl : String
  gx : J
deriving DecidableEq, Repr

/-- The body of the persons loop: skip entries with a falsy `id`, otherwise
upsert with the extracted name and birth. -/
def processPerson (p : J) : Except PyErr (Option PersonUp) :=
  match dictGet p "id" with
  | .error e => .error e
  | .ok pid =>
    if !pyTruthy pid then .ok none
    else
      match extract_name p with
      | .error e => .error e
      | .ok name =>
        match extract_birth p with
        | .error e => .error e
        | .ok birth => .ok (some ⟨pid, name, birth⟩)

/-- `t = gx_type.split('/')[-1].upper() if gx_type else ""`: raises
`AttributeError` when `gx_type` is truthy but not a string. -/
def canonFromJ (gx : J) : Except PyErr String :=
  if pyTruthy gx then
    match gx with
    | .str s => .ok (canonTok s)
    | _ => .error .attrErr
  else .ok ""

/-- The value `canonFromJ` returns when it does not raise. -/
def canonT (gx : J) : String :=
  if pyTruthy gx then
    match gx with
    | .str s => canonTok s
    | _ => ""
  else ""

/-- `_gx_ref_to_id(((r.get(k) or {}).get("resource")) or "")`. -/
def resolveEndpoint (r : J) (k : String) : Except PyErr J :=
  match dictGet r k with
  | .error e => .error e
  | .ok p1 =>
    match dictGet (if pyTruthy p1 then p1 else .obj []) "resource" with
    | .error e => .error e
    | .ok res => gx_ref_to_id (if pyTruthy res then res else .str "")

/-- The body of the relationships loop: canonicalize the type, resolve both
endpoint references, skip if either is falsy, otherwise upsert the edge. -/
def processRel (r : J) : Except PyErr (Option EdgeUp) :=
  match dictGetD r "type" (.str "") with
  | .error e => .error e
  | .ok gx =>
    match canonFromJ gx with
    | .error e => .error e
    | .ok t =>
      let relType := canonLabel t
      match resolveEndpoint r "person1" with
      | .error e => .error e
      | .ok src =>
        match resolveEndpoint r "person2" with
        | .error e => .error e
        | .ok dst =>
          if !pyTruthy src || !pyTruthy dst then .ok none
          else .ok (some ⟨src, dst, relType, gx⟩)

/-- Run a loop body over the entries, collecting the upserts issued before the
first uncaught exception (if any). -/
def runList (f : J → Except PyErr (Option α)) : List J → List α × Option PyErr
  | [] => ([], none)
  | x :: xs =>
    match f x with
    | .error e => ([], some e)
    | .ok none => runList f xs
    | .ok (some op) =>
      let r := runList f xs
      (op :: r.1, r.2)

/-- Outcome of `import_gedcomx`, with the upserts issued to the store.
`badRequest` is the HTTP 400 raised before the store session is acquired;
`internalError` is the HTTP 500 wrapping any exception raised inside the
`try` block, after the recorded upserts were already issued. -/
inductive ImportResult where
  | badRequest : ImportResult
  | internalError (pops : List PersonUp) (eops : List EdgeUp) (e : PyErr) : ImportResult
  | success (pops : List PersonUp) (eops : List EdgeUp) : ImportResult
deriving DecidableEq, Repr

/-- `payload.get("persons") or []` / `payload.get("relationships") or []`. -/
def listField (payload : J) (k : String) : J :=
  let v := objGet payload k
  if pyTruthy v then v else .arr []

/-- The `try` block of `import_gedcomx`, for an object payload. -/
def importBody (payload : J) : ImportResult :=
  match iterElems (listField payload "persons") with
  | .error e => .internalError [] [] e
  | .ok ps =>
    match runList processPerson ps with
    | (pops, some e) => .internalError pops [] e
    | (pops, none) =>
      match iterElems (listField payload "relationships") with
      | .error e => .internalError pops [] e
      | .ok rs =>
        match runList processRel rs with
        | (eops, some e) => .internalError pops eops e
        | (eops, none) => .success pops eops

/-- `import_gedcomx` from `app/src/routes.py`: HTTP 400 when the payload is
not a JSON object, otherwise the persons pass followed by the relationships
pass. -/
def import_gedcomx (payload : J) : ImportResult :=
  match payload with
  | .obj kvs => importBody (.obj kvs)
  | _ => .badRequest

/-! ### The graph store: MERGE-semantics model

`MERGE` on a keyed pattern updates every match in place, and appends a fresh
entity when nothing matches.  Person nodes are keyed by `id`; edges are keyed
by `(src, dst, label)` and are only created when both endpoint nodes match. -/

/-- A stored `Person` node (`SET n.name, n.birth, n.gx_id` with `gx_id = id`). -/
structure PNode where
  id : J
  name : J
  birth : J
  gx_id : J
deriving DecidableEq, Repr

/-- A stored relationship edge with its `gx_type` property. -/
structure GEdge where
  src : J
  dst : J
  lbl : String
  gx_type : J
deriving DecidableEq, Repr

/-- Generic MERGE on a list of entities keyed by `key`: update every match in
place, else append. -/
def mergeKeyed {α : Type} {κ : Type} [DecidableEq κ] (key : α → κ) (n : α) (g : List α) : List α :=
  if g.any (fun m => decide (key m = key n)) then
    g.map (fun m => if key m = key n then n else m)
  else g ++ [n]

def pnodeOf (u : PersonUp) : PNode := ⟨u.id, u.name, u.birth, u.id⟩

def edgeOf (u : EdgeUp) : GEdge := ⟨u.src, u.dst, u.lbl, u.gx⟩

def edgeKey (e : GEdge) : J × J × String := (e.src, e.dst, e.lbl)

/-- Person upsert applied to the node table. -/
def applyPerson (g : List PNode) (u : PersonUp) : List PNode :=
  mergeKeyed PNode.id (pnodeOf u) g

def applyPersons (us : List PersonUp) (g : List PNode) : List PNode :=
  us.foldl applyPerson g

/-- Whether `MATCH (x:Person {id: v})` finds a node. -/
def hasPerson (g : List PNode) (v : J) : Bool :=
  g.any (fun m => decide (m.id = v))

/-- Edge upsert: the `MATCH ... MERGE` statement touches nothing unless both
endpoint nodes exist. -/
def applyEdge (p : List PNode) (es : List GEdge) (u : EdgeUp) : List GEdge :=
  if hasPerson p u.src && hasPerson p u.dst then
    mergeKeyed edgeKey (edgeOf u) es
  else es

def applyEdges (us : List EdgeUp) (p : List PNode) (es : List GEdge) : List GEdge :=
  us.foldl (applyEdge p) es

/-- Whole graph state. -/
structure GS where
  persons : List PNode
  edges : List GEdge
deriving DecidableEq, Repr

def emptyGS : GS := ⟨[], []⟩

/-- Effect of one import run on the store: the persons pass runs strictly
before the relationships pass, so every edge upsert sees the node table left
by the persons pass. -/
def runImport (pops : List PersonUp) (eops : List EdgeUp) (g : GS) : GS :=
  ⟨applyPersons pops g.persons,
   applyEdges eops (applyPersons pops g.persons) g.edges⟩

/-! ### Shape predicates

The subset of payloads on which the Python pipeline provably raises no
exception: every present intermediate container has the type the code
dereferences it at.  (`display` bound to `null` is deliberately *not* allowed:
`person.get("display", {})` returns the bound `None` and the chained
`.get("name")` then raises — see the C2 counterexample.) -/

/-- Shape under which `_extract_name` is total. -/
def nameShaped (p : J) : Bool :=
  isObjB p &&
  (let ns := objGet p "names"
   !pyTruthy ns ||
     (isArrB ns && isObjB (headJ ns) &&
       (let fs := objGet (headJ ns) "nameForms"
        !pyTruthy fs || (isArrB fs && isObjB (headJ fs))))) &&
  (!hasKeyB p "display" || isObjB (objGet p "display"))

/-- Shape of one fact entry under which the `_extract_birth` loop body is
total: a dict whose `date` (if truthy) is a dict. -/
def factShaped (f : J) : Bool :=
  isObjB f && (let d := objGet f "date"; !pyTruthy d || isObjB d)

/-- Shape under which `_extract_birth` is total. -/
def birthShaped (p : J) : Bool :=
  isObjB p &&
  (let fs := objGet p "facts"
   !pyTruthy fs || (isArrB fs && (arrElems fs).all factShaped))

/-- Shape of one entry of `persons[]` under which the persons-loop body is
total: a dict, and when its `id` is truthy the two normalizers are total. -/
def personEntryShaped (p : J) : Bool :=
  isObjB p && (!pyTruthy (objGet p "id") || (nameShaped p && birthShaped p))

/-- An endpoint field (`person1`/`person2`): falsy, or a dict whose
`resource` is a string or falsy. -/
def endpointShaped (v : J) : Bool :=
  !pyTruthy v || (isObjB v && (let r := objGet v "resource"; isStrB r || !pyTruthy r))

/-- Shape of one entry of `relationships[]` under which the relationships-loop
body is total: a dict whose `type` is a string or falsy and whose endpoints
are well-shaped. -/
def relEntryShaped (r : J) : Bool :=
  isObjB r &&
  (let t := objGet r "type"; isStrB t || !pyTruthy t) &&
  endpointShaped (objGet r "person1") &&
  endpointShaped (objGet r "person2")

/-- Shape of a whole payload under which the import provably succeeds. -/
def payloadShaped (payload : J) : Bool :=
  isObjB payload &&
  (let ps := objGet payload "persons"
   !pyTruthy ps || (isArrB ps && (arrElems ps).all personEntryShaped)) &&
  (let rs := objGet payload "relationships"
   !pyTruthy rs || (isArrB rs && (arrElems rs).all relEntryShaped))

/-! ### Specification-side definitions

These follow the wording of the specification (not the code) and are compared
with the embedded code in the refinement theorems below. -/

/-- The ASCII token grammar of the specification:
`[A-Za-z_][A-Za-z0-9_]*` (`Char.isAlpha`/`Char.isAlphanum` are the ASCII
classifiers). -/
def matchesTokenGrammar (s : String) : Bool :=
  match s.data with
  | [] => false
  | c :: cs => (c.isAlpha || c = '_') && cs.all (fun d => d.isAlphanum || d = '_')

/-- A string field that is "present and non-empty" in the sense of the spec;
anything else is absent. -/
def strLeaf : J → Option String
  | .str s => if s = "" then none else some s
  | _ => none

/-- The value sitting at the `names[0].nameForms[0].fullText` path. -/
def fullTextVal (p : J) : J :=
  objGet (headJ (objGet (headJ (objGet p "names")) "nameForms")) "fullText"

/-- Spec §4.2, name priority 1: the `fullText` of the first entry of
`nameForms[]` of the first entry of `names[]`, if present and non-empty. -/
def specFullText (p : J) : Option String :=
  strLeaf (fullTextVal p)

/-- Spec §4.2, name priority 2: `display.name`, if present and non-empty. -/
def specDisplayName (p : J) : Option String :=
  strLeaf (objGet (objGet p "display") "name")

/-- Spec §4.2, name priority 3: the person's own `id`, if present and
non-empty. -/
def specId (p : J) : Option String :=
  strLeaf (objGet p "id")

/-- Spec §4.2, priorities 2–4: `display.name`, else `id`, else `"Unknown"`. -/
def specFallback (p : J) : String :=
  match specDisplayName p with
  | some s => s
  | none =>
    match specId p with
    | some s => s
    | none => "Unknown"

/-- Spec §4.2: the name-extraction priority chain, first match wins, with the
literal fallback `"Unknown"`. -/
def specName (p : J) : String :=
  match specFullText p with
  | some s => s
  | none => specFallback p

/-- A leaf the claims read as a string: a string value, or anything falsy
(absent, null, `""`, …), but not a truthy non-string. -/
def leafStrOK (v : J) : Bool := isStrB v || !pyTruthy v

/-- `nameShaped` strengthened so that the three leaves of the name priority
chain are strings or absent. -/
def nameStrShaped (p : J) : Bool :=
  nameShaped p && leafStrOK (fullTextVal p) &&
  leafStrOK (objGet (objGet p "display") "name") && leafStrOK (objGet p "id")

/-- A fact whose `type` field is a string or null/absent (so that the Python
`str(...)` conversion in the loop stays in the modelled fragment). -/
def factTypeOK (f : J) : Bool :=
  isStrB (objGet f "type") || objGet f "type" = .null

/-- `birthShaped` strengthened so that every fact's `type` is a string or
null/absent. -/
def birthStrShaped (p : J) : Bool :=
  birthShaped p && (arrElems (objGet p "facts")).all factTypeOK

/-- Spec §4.2: a fact matches when its `type` string, compared
case-insensitively, ends with the suffix `"/birth"`. -/
def specFactMatches (f : J) : Bool :=
  match objGet f "type" with
  | .str s => pyEndsWith (pyLowerS s) "/birth"
  | _ => false

/-- Spec §4.2: the matching fact's `date.original` field (absent = `none`). -/
def specDateOriginal (f : J) : J :=
  objGet (objGet f "date") "original"

/-- Spec §4.2: scan `facts[]` in input order and use only the first matching
fact, without continuing after a match. -/
def specBirthScan : List J → Option J
  | [] => none
  | f :: rest => if specFactMatches f then some (specDateOriginal f) else specBirthScan rest

/-- Spec §4.2: birth extraction over the person's `facts[]` list. -/
def specBirth (p : J) : Option J :=
  match objGet p "facts" with
  | .arr fs => specBirthScan fs
  | _ => none

/-- Spec §4.1: strip exactly one leading `#` from a reference string; a
non-string (absent) reference is unresolved (`""`). -/
def stripRef : J → String
  | .str s => if s.startsWith "#" then s.drop 1 else s
  | _ => ""

/-- Spec §4.1/§4.4: the resolved endpoint reference of a relationship record —
the `resource` string with a single leading `#` stripped, or `""` when absent
or not a string. -/
def specResolve (r : J) (k : String) : String :=
  stripRef (objGet (objGet r k) "resource")

/-- Claim C8: a relationship record one of whose endpoint references is absent
or resolves to the empty string. -/
def unresolvedRel (r : J) : Bool :=
  specResolve r "person1" = "" || specResolve r "person2" = ""

/-! ### Generic keyed-merge combinators (for the idempotence development) -/

section KeyedMerge

variable {α : Type} {κ : Type} [DecidableEq κ]

/-- Fold a list of MERGE operations over a store. -/
def foldMerge (key : α → κ) (ns : List α) (g : List α) : List α :=
  ns.foldl (fun acc n => mergeKeyed key n acc) g

/-- Whether some stored entity has key `k`. -/
def hasKeyF (key : α → κ) (g : List α) (k : κ) : Bool :=
  g.any (fun m => decide (key m = k))

/-- The last entity in `ns` whose key is `key m`, defaulting to `m`: the value
an in-place MERGE replay leaves at a position currently holding `m`. -/
def lastUpd (key : α → κ) (ns : List α) (m : α) : α :=
  ns.foldl (fun acc n => if key n = key m then n else acc) m

end KeyedMerge

/-- All characters ASCII. -/
def asciiStr (s : String) : Bool := s.data.all (fun c => c.toNat < 128)

/-- An absent optional value rendered as Python `None`. -/
def optJ : Option J → J
  | none => .null
  | some v => v

/-! ## Basic lemmas -/

@[simp] lemma dictGet_obj (kvs : List (String × J)) (k : String) :
    dictGet (.obj kvs) k = .ok ((kvs.lookup k).getD .null) := rfl

@[simp] lemma dictGetD_obj (kvs : List (String × J)) (k : String) (d : J) :
    dictGetD (.obj kvs) k d = .ok ((kvs.lookup k).getD d) := rfl

@[simp] lemma objGet_obj (kvs : List (String × J)) (k : String) :
    objGet (.obj kvs) k = (kvs.lookup k).getD .null := rfl

@[simp] lemma pyTruthy_null : pyTruthy .null = false := rfl

@[simp] lemma pyTruthy_arr (xs : List J) : pyTruthy (.arr xs) = !xs.isEmpty := rfl

@[simp] lemma pyTruthy_str (s : String) : pyTruthy (.str s) = (s != "") := rfl

lemma isObjB_true {p : J} (h : isObjB p = true) : ∃ kvs, p = .obj kvs := by
  cases p <;> simp [isObjB] at h ⊢

lemma objGet_falsy {v : J} (h : pyTruthy v = false) (k : String) : objGet v k = .null := by
  cases v with
  | obj kvs =>
    have hkvs : kvs.isEmpty = true := by simpa [pyTruthy] using h
    rw [List.isEmpty_iff] at hkvs
    rw [hkvs]
    rfl
  | null => rfl
  | bool b => rfl
  | num n => rfl
  | str s => rfl
  | arr xs => rfl


lemma isArrB_true {p : J} (h : isArrB p = true) : ∃ xs, p = .arr xs := by
  cases p <;> simp [isArrB] at h ⊢

lemma isStrB_true {p : J} (h : isStrB p = true) : ∃ s, p = .str s := by
  cases p <;> simp [isStrB] at h ⊢

/-! ## Totality of the person normalizers on well-shaped input -/

lemma fallbackName_total {kvs : List (String × J)}
    (hd : hasKeyB (.obj kvs) "display" = false ∨ isObjB (objGet (.obj kvs) "display") = true) :
    ∃ v, fallbackName (.obj kvs) = .ok v := by
  unfold fallbackName
  rcases hL : kvs.lookup "display" with _ | dv
  · simp only [dictGetD_obj, hL, Option.getD_none, dictGet_obj, List.lookup_nil,
      pyTruthy_null, if_false, Bool.false_eq_true]
    split <;> exact ⟨_, rfl⟩
  · have hdv : isObjB dv = true := by
      rcases hd with hd | hd
      · simp [hasKeyB, hL] at hd
      · simpa [objGet, hL] using hd
    obtain ⟨dkvs, rfl⟩ := isObjB_true hdv
    simp only [dictGetD_obj, hL, Option.getD_some, dictGet_obj]
    split
    · exact ⟨_, rfl⟩
    · split <;> exact ⟨_, rfl⟩

lemma extract_name_total {p : J} (h : nameShaped p = true) : ∃ v, extract_name p = .ok v := by
  unfold nameShaped at h
  simp only [Bool.and_eq_true, Bool.or_eq_true, Bool.not_eq_true'] at h
  obtain ⟨⟨hobj, hnames⟩, hdisp⟩ := h
  obtain ⟨kvs, rfl⟩ := isObjB_true hobj
  obtain ⟨w, hw⟩ := @fallbackName_total kvs (by
    rcases hdisp with hd | hd
    · exact Or.inl (by simpa using hd)
    · exact Or.inr hd)
  simp only [objGet_obj] at hnames
  unfold extract_name
  simp only [dictGet_obj]
  by_cases htr : pyTruthy ((kvs.lookup "names").getD J.null) = true
  case neg => simp [htr, hw]
  rcases hnames with hfalsy | ⟨⟨harr, hhead⟩, hforms⟩
  · rw [htr] at hfalsy; cases hfalsy
  obtain ⟨xs, hx⟩ := isArrB_true harr
  rw [hx] at htr hhead hforms ⊢
  rcases xs with _ | ⟨x, xt⟩
  · simp [pyTruthy] at htr
  rw [if_pos htr, if_pos htr]
  simp only [headJ] at hhead hforms
  obtain ⟨xkvs, rfl⟩ := isObjB_true hhead
  simp only [index0, dictGet_obj, objGet_obj] at hforms ⊢
  by_cases hftr : pyTruthy ((xkvs.lookup "nameForms").getD J.null) = true
  case neg => simp [hftr, hw]
  rcases hforms with hfalsy | ⟨farr, fhead⟩
  · rw [hftr] at hfalsy; cases hfalsy
  obtain ⟨fs, hf⟩ := isArrB_true farr
  rw [hf] at hftr fhead ⊢
  rcases fs with _ | ⟨f, ft⟩
  · simp [pyTruthy] at hftr
  rw [if_pos hftr, if_pos hftr]
  simp only [headJ] at fhead
  obtain ⟨fkvs, rfl⟩ := isObjB_true fhead
  simp only [index0, dictGet_obj]
  split
  · exact ⟨_, rfl⟩
  · exact ⟨w, hw⟩

lemma birthScan_total {fs : List J} (h : fs.all factShaped = true) : ∃ v, birthScan fs = .ok v := by
  induction fs with
  | nil => exact ⟨_, rfl⟩
  | cons f rest ih =>
    simp only [List.all_cons, Bool.and_eq_true] at h
    obtain ⟨hf, hrest⟩ := h
    unfold factShaped at hf
    simp only [Bool.and_eq_true, Bool.or_eq_true, Bool.not_eq_true'] at hf
    obtain ⟨hobj, hdate⟩ := hf
    obtain ⟨kvs, rfl⟩ := isObjB_true hobj
    unfold birthScan
    simp only [dictGetD_obj, objGet_obj] at hdate ⊢
    split
    · simp only [dictGet_obj]
      by_cases hdt : pyTruthy ((kvs.lookup "date").getD J.null) = true
      · rcases hdate with hfalsy | hdobj
        · rw [hdt] at hfalsy; cases hfalsy
        · rw [if_pos hdt]
          obtain ⟨dkvs, hdk⟩ := isObjB_true hdobj
          rw [hdk]
          exact ⟨_, rfl⟩
      · rw [if_neg hdt]
        exact ⟨_, rfl⟩
    · exact ih hrest

lemma extract_birth_total {p : J} (h : birthShaped p = true) : ∃ v, extract_birth p = .ok v := by
  unfold birthShaped at h
  simp only [Bool.and_eq_true, Bool.or_eq_true, Bool.not_eq_true'] at h
  obtain ⟨hobj, hfacts⟩ := h
  obtain ⟨kvs, rfl⟩ := isObjB_true hobj
  simp only [objGet_obj] at hfacts
  unfold extract_birth
  simp only [dictGet_obj]
  by_cases htr : pyTruthy ((kvs.lookup "facts").getD J.null) = true
  · rcases hfacts with hfalsy | ⟨harr, hall⟩
    · rw [htr] at hfalsy; cases hfalsy
    obtain ⟨xs, hx⟩ := isArrB_true harr
    rw [hx] at htr ⊢
    rw [if_pos htr]
    rw [hx] at hall
    simp only [arrElems] at hall
    simpa [iterElems] using birthScan_total hall
  · simp [htr, iterElems, birthScan]

lemma processPerson_total {p : J} (h : personEntryShaped p = true) :
    ∃ v, processPerson p = .ok v := by
  unfold personEntryShaped at h
  simp only [Bool.and_eq_true, Bool.or_eq_true, Bool.not_eq_true'] at h
  obtain ⟨hobj, hid⟩ := h
  obtain ⟨kvs, rfl⟩ := isObjB_true hobj
  simp only [objGet_obj] at hid
  unfold processPerson
  simp only [dictGet_obj]
  by_cases htr : pyTruthy ((kvs.lookup "id").getD J.null) = true
  · rcases hid with hfalsy | ⟨hname, hbirth⟩
    · rw [htr] at hfalsy; cases hfalsy
    rw [htr]
    obtain ⟨n, hn⟩ := extract_name_total hname
    obtain ⟨b, hb⟩ := extract_birth_total hbirth
    simp [hn, hb]
  · simp [htr]

lemma gx_ref_resolve_total {v : J} (h : isStrB v = true ∨ pyTruthy v = false) :
    ∃ s, gx_ref_to_id (if pyTruthy v = true then v else .str "") = .ok (.str s) := by
  by_cases htr : pyTruthy v = true
  · rcases h with hs | hfalsy
    · obtain ⟨s, rfl⟩ := isStrB_true hs
      rw [if_pos htr]
      exact ⟨_, rfl⟩
    · rw [htr] at hfalsy; cases hfalsy
  · rw [if_neg htr]
    exact ⟨_, rfl⟩

lemma canonFromJ_total {gx : J} (h : isStrB gx = true ∨ pyTruthy gx = false) :
    ∃ t, canonFromJ gx = .ok t := by
  unfold canonFromJ
  by_cases htr : pyTruthy gx = true
  · rcases h with hs | hfalsy
    · obtain ⟨s, rfl⟩ := isStrB_true hs
      rw [if_pos htr]
      exact ⟨_, rfl⟩
    · rw [htr] at hfalsy; cases hfalsy
  · rw [if_neg htr]
    exact ⟨_, rfl⟩

lemma resolveEndpoint_total {kvs : List (String × J)} {k : String}
    (h : endpointShaped ((kvs.lookup k).getD .null) = true) :
    ∃ s, resolveEndpoint (.obj kvs) k = .ok (.str s) := by
  unfold endpointShaped at h
  simp only [Bool.and_eq_true, Bool.or_eq_true, Bool.not_eq_true'] at h
  unfold resolveEndpoint
  simp only [dictGet_obj]
  by_cases htr : pyTruthy ((kvs.lookup k).getD J.null) = true
  · rcases h with hfalsy | ⟨hobj, hres⟩
    · rw [htr] at hfalsy; cases hfalsy
    obtain ⟨pkvs, hpk⟩ := isObjB_true hobj
    rw [hpk] at htr ⊢
    rw [if_pos htr]
    simp only [dictGet_obj]
    rw [hpk] at hres
    simp only [objGet_obj] at hres
    exact gx_ref_resolve_total hres
  · rw [if_neg htr]
    simp only [dictGet_obj, List.lookup_nil, Option.getD_none]
    exact gx_ref_resolve_total (Or.inr (by simp [pyTruthy]))

lemma processRel_total {r : J} (h : relEntryShaped r = true) : ∃ v, processRel r = .ok v := by
  unfold relEntryShaped at h
  simp only [Bool.and_eq_true, Bool.or_eq_true, Bool.not_eq_true'] at h
  obtain ⟨⟨⟨hobj, htype⟩, hp1⟩, hp2⟩ := h
  obtain ⟨kvs, rfl⟩ := isObjB_true hobj
  simp only [objGet_obj] at htype hp1 hp2
  unfold processRel
  simp only [dictGetD_obj]
  have htv : isStrB ((kvs.lookup "type").getD (J.str "")) = true ∨
      pyTruthy ((kvs.lookup "type").getD (J.str "")) = false := by
    cases hL : kvs.lookup "type" with
    | none => exact Or.inl (by simp [isStrB])
    | some v => rw [hL] at htype; simpa using htype
  obtain ⟨t, ht⟩ := canonFromJ_total htv
  obtain ⟨s1, hs1⟩ := @resolveEndpoint_total kvs "person1" hp1
  obtain ⟨s2, hs2⟩ := @resolveEndpoint_total kvs "person2" hp2
  simp only [ht, hs1, hs2]
  split
  · exact ⟨_, rfl⟩
  · exact ⟨_, rfl⟩

lemma runList_ok {α : Type} {f : J → Except PyErr (Option α)} {xs : List J}
    (h : ∀ x ∈ xs, ∃ v, f x = .ok v) : (runList f xs).2 = none := by
  induction xs with
  | nil => rfl
  | cons x xt ih =>
    obtain ⟨v, hv⟩ := h x (List.mem_cons_self x xt)
    have ih2 := ih (fun y hy => h y (List.mem_cons_of_mem x hy))
    cases v with
    | none => simp [runList, hv, ih2]
    | some op => simp [runList, hv, ih2]

lemma listField_elems {kvs : List (String × J)} {k : String} {entry : J → Bool}
    (h : pyTruthy (objGet (.obj kvs) k) = false ∨
         (isArrB (objGet (.obj kvs) k) = true ∧
           (arrElems (objGet (.obj kvs) k)).all entry = true)) :
    ∃ xs, iterElems (listField (.obj kvs) k) = .ok xs ∧ xs.all entry = true := by
  unfold listField
  by_cases htr : pyTruthy (objGet (.obj kvs) k) = true
  · rcases h with hfalsy | ⟨harr, hall⟩
    · rw [htr] at hfalsy; cases hfalsy
    obtain ⟨xs, hx⟩ := isArrB_true harr
    rw [if_pos htr, hx]
    rw [hx] at hall
    simp only [arrElems] at hall
    exact ⟨xs, rfl, hall⟩
  · rw [if_neg htr]
    exact ⟨[], rfl, rfl⟩

/-- On a well-shaped payload, the import raises nothing and returns success. -/
lemma import_success {payload : J} (h : payloadShaped payload = true) :
    ∃ pops eops, import_gedcomx payload = .success pops eops := by
  unfold payloadShaped at h
  simp only [Bool.and_eq_true, Bool.or_eq_true, Bool.not_eq_true'] at h
  obtain ⟨⟨hobj, hps⟩, hrs⟩ := h
  obtain ⟨kvs, rfl⟩ := isObjB_true hobj
  obtain ⟨ps, hips, hpall⟩ :=
    @listField_elems kvs "persons" personEntryShaped (by
      rcases hps with hd | hd
      · exact Or.inl hd
      · exact Or.inr hd)
  obtain ⟨rs, hirs, hrall⟩ :=
    @listField_elems kvs "relationships" relEntryShaped (by
      rcases hrs with hd | hd
      · exact Or.inl hd
      · exact Or.inr hd)
  have hpnone : (runList processPerson ps).2 = none :=
    runList_ok (fun x hx => processPerson_total (by
      rw [List.all_eq_true] at hpall
      exact hpall x hx))
  have hrnone : (runList processRel rs).2 = none :=
    runList_ok (fun x hx => processRel_total (by
      rw [List.all_eq_true] at hrall
      exact hrall x hx))
  rcases hpr : runList processPerson ps with ⟨pops, perr⟩
  have hperr : perr = none := by rw [hpr] at hpnone; exact hpnone
  subst hperr
  rcases hrr : runList processRel rs with ⟨eops, rerr⟩
  have hrerr : rerr = none := by rw [hrr] at hrnone; exact hrnone
  subst hrerr
  unfold import_gedcomx importBody
  simp only [hips, hirs, hpr, hrr]
  exact ⟨_, _, rfl⟩

/-! ## Idempotence of keyed MERGE replay -/

section KeyedMergeLemmas

variable {α : Type} {κ : Type} [DecidableEq κ] (key : α → κ)

lemma foldMerge_nil (g : List α) : foldMerge key [] g = g := rfl

lemma foldMerge_cons (n : α) (ns : List α) (g : List α) :
    foldMerge key (n :: ns) g = foldMerge key ns (mergeKeyed key n g) := rfl

lemma foldMerge_append_one (ns : List α) (n : α) (g : List α) :
    foldMerge key (ns ++ [n]) g = mergeKeyed key n (foldMerge key ns g) := by
  simp [foldMerge, List.foldl_append]

lemma hasKeyF_iff {g : List α} {k : κ} : hasKeyF key g k = true ↔ ∃ m ∈ g, key m = k := by
  simp [hasKeyF]

/-- In-place update does not change the multiset of keys. -/
lemma hasKeyF_map_upd (n : α) (g : List α) (k : κ) :
    hasKeyF key (g.map (fun m => if key m = key n then n else m)) k = hasKeyF key g k := by
  induction g with
  | nil => rfl
  | cons m gt ih =>
    unfold hasKeyF at ih ⊢
    simp only [List.map_cons, List.any_cons]
    rw [ih]
    by_cases hmn : key m = key n
    · rw [if_pos hmn, hmn]
    · rw [if_neg hmn]

lemma mergeKeyed_hasKey {n : α} {g : List α} {k : κ} :
    hasKeyF key (mergeKeyed key n g) k = true ↔ (hasKeyF key g k = true ∨ key n = k) := by
  unfold mergeKeyed
  split
  case isTrue hin =>
    rw [hasKeyF_map_upd]
    constructor
    · exact Or.inl
    · rintro (h | h)
      · exact h
      · rw [← h]; exact hin
  case isFalse hout =>
    unfold hasKeyF
    simp only [List.any_append, List.any_cons, List.any_nil, Bool.or_false, Bool.or_eq_true,
      decide_eq_true_eq]

lemma foldMerge_hasKey (ns : List α) :
    ∀ (g : List α) (k : κ),
      hasKeyF key (foldMerge key ns g) k = true ↔
        (hasKeyF key g k = true ∨ ∃ n ∈ ns, key n = k) := by
  induction ns with
  | nil => intro g k; simp [foldMerge_nil]
  | cons x t ih =>
    intro g k
    rw [foldMerge_cons, ih]
    rw [mergeKeyed_hasKey]
    constructor
    · rintro ((h | h) | h)
      · exact Or.inl h
      · exact Or.inr ⟨x, List.mem_cons_self x t, h⟩
      · obtain ⟨n, hn, hk⟩ := h
        exact Or.inr ⟨n, List.mem_cons_of_mem x hn, hk⟩
    · rintro (h | ⟨n, hn, hk⟩)
      · exact Or.inl (Or.inl h)
      · rcases List.mem_cons.mp hn with rfl | hn2
        · exact Or.inl (Or.inr hk)
        · exact Or.inr ⟨n, hn2, hk⟩

lemma lastUpd_nil (m : α) : lastUpd key [] m = m := rfl

lemma map_fix {f : α → α} : ∀ (l : List α), (∀ m ∈ l, f m = m) → l.map f = l := by
  intro l h
  induction l with
  | nil => rfl
  | cons x t ih =>
    simp only [List.map_cons]
    rw [h x (List.mem_cons_self x t), ih (fun m hm => h m (List.mem_cons_of_mem x hm))]

lemma map_pointwise {f g : α → β} : ∀ (l : List α), (∀ m ∈ l, f m = g m) → l.map f = l.map g := by
  intro l h
  induction l with
  | nil => rfl
  | cons x t ih =>
    simp only [List.map_cons]
    rw [h x (List.mem_cons_self x t), ih (fun m hm => h m (List.mem_cons_of_mem x hm))]

/-- Replaying MERGE operations whose keys are all already present only updates
in place: the result is a pointwise map of the store. -/
lemma foldMerge_saturated (ns : List α) :
    ∀ g : List α, (∀ n ∈ ns, hasKeyF key g (key n) = true) →
      foldMerge key ns g = g.map (lastUpd key ns) := by
  induction ns with
  | nil =>
    intro g _
    rw [foldMerge_nil]
    exact (map_fix g (fun m _ => rfl)).symm
  | cons n t ih =>
    intro g hsat
    have hkn : hasKeyF key g (key n) = true := hsat n (List.mem_cons_self n t)
    have hkn2 : (g.any fun m => decide (key m = key n)) = true := hkn
    have hmerge : mergeKeyed key n g = g.map (fun m => if key m = key n then n else m) := by
      unfold mergeKeyed
      rw [if_pos hkn2]
    rw [foldMerge_cons, hmerge]
    rw [ih _ (fun x hx => by
      rw [hasKeyF_map_upd]
      exact hsat x (List.mem_cons_of_mem n hx))]
    rw [List.map_map]
    apply map_pointwise
    intro m _
    show lastUpd key t (if key m = key n then n else m) = lastUpd key (n :: t) m
    by_cases hmn : key m = key n
    · rw [if_pos hmn]
      unfold lastUpd
      rw [List.foldl_cons, if_pos hmn.symm]
      congr 1
      funext acc x
      rw [hmn]
    · rw [if_neg hmn]
      unfold lastUpd
      rw [List.foldl_cons, if_neg (fun hh => hmn hh.symm)]

/-- Every entity produced by replaying `ns` over the empty store is already
the last update for its key. -/
lemma foldMerge_mem_fix (ns : List α) :
    ∀ m ∈ foldMerge key ns [], lastUpd key ns m = m := by
  induction ns using List.reverseRecOn with
  | nil => intro m hm; cases hm
  | append_singleton ns n ih =>
    intro m hm
    rw [foldMerge_append_one] at hm
    have hlast : ∀ m₀ : α, lastUpd key (ns ++ [n]) m₀ =
        if key n = key m₀ then n else lastUpd key ns m₀ := by
      intro m₀
      unfold lastUpd
      rw [List.foldl_append, List.foldl_cons, List.foldl_nil]
    unfold mergeKeyed at hm
    split at hm
    case isTrue hin =>
      obtain ⟨m₀, hm₀, hup⟩ := List.mem_map.mp hm
      by_cases hmn : key m₀ = key n
      · rw [if_pos hmn] at hup
        rw [← hup, hlast, if_pos rfl]
      · rw [if_neg hmn] at hup
        rw [← hup, hlast, if_neg (fun hh => hmn hh.symm)]
        exact ih m₀ hm₀
    case isFalse hout =>
      rcases List.mem_append.mp hm with hm2 | hm2
      · have hne : key n ≠ key m := by
          intro hh
          apply hout
          exact (hasKeyF_iff key).mpr ⟨m, hm2, hh.symm⟩
        rw [hlast, if_neg hne]
        exact ih m hm2
      · rcases List.mem_singleton.mp hm2 with rfl
        rw [hlast, if_pos rfl]

/-- Replaying the same MERGE sequence a second time over the store it produced
changes nothing. -/
lemma foldMerge_idem (ns : List α) :
    foldMerge key ns (foldMerge key ns []) = foldMerge key ns [] := by
  have hsat : ∀ n ∈ ns, hasKeyF key (foldMerge key ns []) (key n) = true := fun n hn =>
    (foldMerge_hasKey key ns [] (key n)).mpr (Or.inr ⟨n, hn, rfl⟩)
  rw [foldMerge_saturated key ns _ hsat]
  exact map_fix _ (foldMerge_mem_fix key ns)

/-- MERGE never duplicates a key. -/
lemma foldMerge_nodup (ns : List α) :
    ∀ g : List α, (g.map key).Nodup → ((foldMerge key ns g).map key).Nodup := by
  induction ns with
  | nil => intro g h; exact h
  | cons n t ih =>
    intro g h
    rw [foldMerge_cons]
    apply ih
    unfold mergeKeyed
    split
    case isTrue hin =>
      rw [List.map_map]
      have : ∀ m ∈ g, (key ∘ fun m => if key m = key n then n else m) m = key m := by
        intro m _
        by_cases hmn : key m = key n
        · simp [hmn]
        · simp [hmn]
      rw [map_pointwise g this]
      exact h
    case isFalse hout =>
      rw [List.map_append]
      rw [List.nodup_append]
      refine ⟨h, by simp, ?_⟩
      intro a ha hmem
      obtain ⟨m, hm, hkm⟩ := List.mem_map.mp ha
      simp only [List.map_cons, List.map_nil, List.mem_singleton] at hmem
      apply hout
      exact (hasKeyF_iff key).mpr ⟨m, hm, by rw [hkm, hmem]⟩

end KeyedMergeLemmas

/-! ## The graph model as keyed MERGE replay -/

lemma applyPersons_eq (us : List PersonUp) (g : List PNode) :
    applyPersons us g = foldMerge PNode.id (us.map pnodeOf) g := by
  unfold applyPersons foldMerge
  rw [List.foldl_map]
  rfl

lemma applyEdges_eq (us : List EdgeUp) (p : List PNode) :
    ∀ es, applyEdges us p es =
      foldMerge edgeKey
        ((us.filter (fun u => hasPerson p u.src && hasPerson p u.dst)).map edgeOf) es := by
  induction us with
  | nil => intro es; rfl
  | cons u t ih =>
    intro es
    show applyEdges t p (applyEdge p es u) = _
    by_cases hg : (hasPerson p u.src && hasPerson p u.dst) = true
    · simp only [List.filter_cons]
      rw [if_pos hg]
      simp only [List.map_cons]
      rw [foldMerge_cons, ih]
      congr 1
      unfold applyEdge
      rw [if_pos hg]
    · simp only [List.filter_cons]
      rw [if_neg hg, ih]
      congr 1
      unfold applyEdge
      rw [if_neg hg]

/-- One import run replayed over its own output changes nothing: person
upserts are keyed by `id`, edge upserts by `(src, dst, label)`, and the node
table the second relationships pass sees equals the one the first saw. -/
lemma runImport_idem (pops : List PersonUp) (eops : List EdgeUp) :
    runImport pops eops (runImport pops eops emptyGS) = runImport pops eops emptyGS := by
  unfold runImport emptyGS
  have hp : applyPersons pops (applyPersons pops []) = applyPersons pops [] := by
    rw [applyPersons_eq pops (applyPersons pops []), applyPersons_eq pops []]
    exact foldMerge_idem _ _
  simp only [GS.mk.injEq]
  refine ⟨hp, ?_⟩
  rw [hp]
  rw [applyEdges_eq eops (applyPersons pops []) (applyEdges eops (applyPersons pops []) []),
    applyEdges_eq eops (applyPersons pops []) []]
  exact foldMerge_idem _ _

/-- After an import into the empty store there is at most one `Person` node
per `id`. -/
lemma runImport_nodup (pops : List PersonUp) (eops : List EdgeUp) :
    (((runImport pops eops emptyGS).persons).map PNode.id).Nodup := by
  unfold runImport emptyGS
  simp only
  rw [applyPersons_eq]
  exact foldMerge_nodup _ _ [] (by simp)

/-! ## Further orchestration helpers -/

lemma importBody_ne_badRequest (payload : J) : importBody payload ≠ .badRequest := by
  unfold importBody
  split
  · intro h; exact ImportResult.noConfusion h
  · split
    · intro h; exact ImportResult.noConfusion h
    · split
      · intro h; exact ImportResult.noConfusion h
      · split
        · intro h; exact ImportResult.noConfusion h
        · intro h; exact ImportResult.noConfusion h


lemma arrElems_falsy {v : J} (h : pyTruthy v = false) : arrElems v = [] := by
  cases v with
  | arr xs =>
    simp only [pyTruthy_arr, Bool.not_eq_false'] at h
    rw [List.isEmpty_iff] at h
    rw [h]; rfl
  | null => rfl
  | bool b => rfl
  | num n => rfl
  | str s => rfl
  | obj kvs => rfl

lemma payload_persons_shaped {payload : J} (h : payloadShaped payload = true) :
    ∀ p ∈ arrElems (objGet payload "persons"), personEntryShaped p = true := by
  unfold payloadShaped at h
  simp only [Bool.and_eq_true, Bool.or_eq_true, Bool.not_eq_true'] at h
  obtain ⟨⟨hobj, hps⟩, _⟩ := h
  intro p hp
  rcases hps with hfalsy | ⟨harr, hall⟩
  · rw [arrElems_falsy hfalsy] at hp
    cases hp
  · rw [List.all_eq_true] at hall
    exact hall p hp

lemma payload_rels_shaped {payload : J} (h : payloadShaped payload = true) :
    ∀ r ∈ arrElems (objGet payload "relationships"), relEntryShaped r = true := by
  unfold payloadShaped at h
  simp only [Bool.and_eq_true, Bool.or_eq_true, Bool.not_eq_true'] at h
  obtain ⟨⟨hobj, _⟩, hrs⟩ := h
  intro r hr
  rcases hrs with hfalsy | ⟨harr, hall⟩
  · rw [arrElems_falsy hfalsy] at hr
    cases hr
  · rw [List.all_eq_true] at hall
    exact hall r hr

/-- The persons-loop body skips (no upsert, no exception) whenever the entry's
`id` is falsy — in particular when the key is absent. -/
lemma processPerson_falsy_id {p : J} (hobj : isObjB p = true)
    (h : pyTruthy (objGet p "id") = false) : processPerson p = .ok none := by
  obtain ⟨kvs, rfl⟩ := isObjB_true hobj
  simp only [objGet_obj] at h
  unfold processPerson
  simp only [dictGet_obj, h]
  rfl

lemma hasKeyB_false_lookup {kvs : List (String × J)} {k : String}
    (h : hasKeyB (.obj kvs) k = false) : kvs.lookup k = none := by
  simp only [hasKeyB] at h
  cases hL : kvs.lookup k with
  | none => rfl
  | some v => rw [hL] at h; simp at h

/-! ## ASCII facts about the canonicalizer -/

set_option maxRecDepth 4000 in
lemma ascii_char_facts : ∀ n : Nat, n < 128 →
    ((pyUpper (Char.ofNat n)).toNat < 128 ∧
     pyIdentStart (Char.ofNat n) = ((Char.ofNat n).isAlpha || Char.ofNat n = '_') ∧
     pyIdentCont (Char.ofNat n) = ((Char.ofNat n).isAlphanum || Char.ofNat n = '_')) := by
  decide

lemma pyUpper_ascii {c : Char} (h : c.toNat < 128) : (pyUpper c).toNat < 128 := by
  have hf := ascii_char_facts c.toNat h
  rw [Char.ofNat_toNat] at hf
  exact hf.1

lemma pyIdentStart_ascii {c : Char} (h : c.toNat < 128) :
    pyIdentStart c = (c.isAlpha || c = '_') := by
  have hf := ascii_char_facts c.toNat h
  rw [Char.ofNat_toNat] at hf
  exact hf.2.1

lemma pyIdentCont_ascii {c : Char} (h : c.toNat < 128) :
    pyIdentCont c = (c.isAlphanum || c = '_') := by
  have hf := ascii_char_facts c.toNat h
  rw [Char.ofNat_toNat] at hf
  exact hf.2.2

lemma asciiStr_iff {s : String} : asciiStr s = true ↔ ∀ c ∈ s.data, c.toNat < 128 := by
  simp [asciiStr]

/-- An ASCII string that is a Python identifier matches the spec's ASCII token
grammar. -/
lemma grammar_of_ident_ascii {u : String} (ha : asciiStr u = true)
    (hi : pyIsIdentifier u = true) : matchesTokenGrammar u = true := by
  rw [asciiStr_iff] at ha
  unfold pyIsIdentifier at hi
  unfold matchesTokenGrammar
  cases hu : u.data with
  | nil => rw [hu] at hi; cases hi
  | cons c cs =>
    rw [hu] at hi ha
    simp only [Bool.and_eq_true] at hi ⊢
    obtain ⟨h1, h2⟩ := hi
    refine ⟨?_, ?_⟩
    · rw [← pyIdentStart_ascii (ha c (List.mem_cons_self c cs))]
      exact h1
    · rw [List.all_eq_true] at h2 ⊢
      intro d hd
      rw [← pyIdentCont_ascii (ha d (List.mem_cons_of_mem c hd))]
      exact h2 d hd

lemma splitChar_ne_nil (sep : Char) (cs : List Char) : splitChar sep cs ≠ [] := by
  cases cs with
  | nil => exact fun h => List.noConfusion h
  | cons x xt =>
    unfold splitChar
    cases hr : splitChar sep xt with
    | nil => exact fun h => List.noConfusion h
    | cons h t =>
      dsimp only
      by_cases hx : x = sep
      · rw [if_pos hx]; exact fun hh => List.noConfusion hh
      · rw [if_neg hx]; exact fun hh => List.noConfusion hh

lemma splitChar_mem (sep : Char) : ∀ (cs : List Char), ∀ piece ∈ splitChar sep cs,
    ∀ c ∈ piece, c ∈ cs := by
  intro cs
  induction cs with
  | nil =>
    intro piece hp c hc
    simp only [splitChar, List.mem_singleton] at hp
    rw [hp] at hc
    cases hc
  | cons x xt ih =>
    intro piece hp c hc
    unfold splitChar at hp
    cases hr : splitChar sep xt with
    | nil =>
      rw [hr] at hp
      simp only [List.mem_singleton] at hp
      rw [hp] at hc
      simp only [List.mem_singleton] at hc
      rw [hc]
      exact List.mem_cons_self x xt
    | cons h t =>
      rw [hr] at hp
      dsimp only at hp
      by_cases hx : x = sep
      · rw [if_pos hx] at hp
        rcases List.mem_cons.mp hp with rfl | hp2
        · cases hc
        · exact List.mem_cons_of_mem x (ih piece (by rw [hr]; exact hp2) c hc)
      · rw [if_neg hx] at hp
        rcases List.mem_cons.mp hp with rfl | hp2
        · rcases List.mem_cons.mp hc with rfl | hc2
          · exact List.mem_cons_self c xt
          · exact List.mem_cons_of_mem x
              (ih h (by rw [hr]; exact List.mem_cons_self h t) c hc2)
        · exact List.mem_cons_of_mem x
            (ih piece (by rw [hr]; exact List.mem_cons_of_mem h hp2) c hc)

lemma getLastD_mem {β : Type} : ∀ (l : List β) (d : β), l ≠ [] → l.getLastD d ∈ l := by
  intro l
  induction l with
  | nil => intro d h; cases h rfl
  | cons x xt ih =>
    intro d _
    rw [List.getLastD_cons]
    cases hx : xt with
    | nil => simp [List.getLastD]
    | cons y yt =>
      rw [← hx]
      exact List.mem_cons_of_mem x (ih x (by rw [hx]; exact fun hh => List.noConfusion hh))

lemma canonTok_ascii {s : String} (h : asciiStr s = true) : asciiStr (canonTok s) = true := by
  rw [asciiStr_iff] at h ⊢
  intro c hc
  obtain ⟨c0, hc0, rfl⟩ := List.mem_map.mp hc
  have hpiece := getLastD_mem (splitChar '/' s.data) [] (splitChar_ne_nil '/' s.data)
  exact pyUpper_ascii (h c0 (splitChar_mem '/' s.data _ hpiece c0 hc0))

lemma pyUpperS_ascii {u : String} (h : asciiStr u = true) : asciiStr (pyUpperS u) = true := by
  rw [asciiStr_iff] at h ⊢
  intro c hc
  obtain ⟨c0, hc0, rfl⟩ := List.mem_map.mp hc
  exact pyUpper_ascii (h c0 hc0)

lemma sanitizeMap_ascii {t : String} (h : asciiStr t = true) :
    asciiStr (sanitizeMap t) = true := by
  have hbase : asciiStr (sanitizeBase t) = true := by
    unfold sanitizeBase
    apply pyUpperS_ascii
    by_cases ht : t = ""
    · rw [if_pos ht]; decide
    · rw [if_neg ht]; exact h
  rw [asciiStr_iff]
  intro c hc
  obtain ⟨c0, hc0, rfl⟩ := List.mem_map.mp hc
  by_cases hal : pyIsAlnum c0 = true
  · rw [if_pos hal]
    exact asciiStr_iff.mp hbase c0 hc0
  · rw [if_neg hal]
    decide

lemma sanitize_ascii {t : String} (h : asciiStr t = true) : asciiStr (sanitize t) = true := by
  unfold sanitize
  split
  · exact sanitizeMap_ascii h
  · decide

lemma pyIsIdentifier_canonLabel (t : String) : pyIsIdentifier (canonLabel t) = true := by
  unfold canonLabel
  split
  · decide
  · split
    · decide
    · unfold sanitize
      split
      case isTrue hh => exact hh
      case isFalse _ => decide

lemma canonLabel_ascii {t : String} (h : asciiStr t = true) : asciiStr (canonLabel t) = true := by
  unfold canonLabel
  split
  · decide
  · split
    · decide
    · exact sanitize_ascii h

lemma canonicalize_ident (s : String) : pyIsIdentifier (canonicalize s) = true :=
  pyIsIdentifier_canonLabel _

lemma canonicalize_ascii {s : String} (h : asciiStr s = true) :
    asciiStr (canonicalize s) = true := by
  unfold canonicalize
  apply canonLabel_ascii
  split
  · exact canonTok_ascii h
  · decide

/-! ## Name and birth extraction against the specification chain -/

lemma strLeaf_some_inv {v : J} {s : String} (h : strLeaf v = some s) :
    v = .str s ∧ s ≠ "" := by
  cases v with
  | str s0 =>
    unfold strLeaf at h
    dsimp only at h
    by_cases hs0 : s0 = ""
    · rw [if_pos hs0] at h; cases h
    · rw [if_neg hs0] at h
      obtain rfl := Option.some.inj h
      exact ⟨rfl, hs0⟩
  | null => exact Option.noConfusion h
  | bool b => exact Option.noConfusion h
  | num n => exact Option.noConfusion h
  | arr xs => exact Option.noConfusion h
  | obj kvs => exact Option.noConfusion h

lemma strLeaf_falsy {v : J} (h : pyTruthy v = false) : strLeaf v = none := by
  cases v with
  | str s =>
    have hs : s = "" := by simpa [pyTruthy] using h
    rw [hs]
    rfl
  | null => rfl
  | bool b => rfl
  | num n => rfl
  | arr xs => rfl
  | obj kvs => rfl

lemma strLeaf_truthy {v : J} (hok : leafStrOK v = true) (h : pyTruthy v = true) :
    ∃ s, v = .str s ∧ s ≠ "" ∧ strLeaf v = some s := by
  unfold leafStrOK at hok
  simp only [Bool.or_eq_true, Bool.not_eq_true'] at hok
  rcases hok with hs | hfalsy
  · obtain ⟨s, rfl⟩ := isStrB_true hs
    have hse : s ≠ "" := by simpa [pyTruthy] using h
    exact ⟨s, rfl, hse, by unfold strLeaf; dsimp only; rw [if_neg hse]⟩
  · rw [h] at hfalsy; cases hfalsy

lemma specFallback_ne (p : J) : specFallback p ≠ "" := by
  unfold specFallback
  cases h1 : specDisplayName p with
  | some s => exact (strLeaf_some_inv h1).2
  | none =>
    cases h2 : specId p with
    | some s => exact (strLeaf_some_inv h2).2
    | none => decide

lemma specName_ne (p : J) : specName p ≠ "" := by
  unfold specName
  cases h1 : specFullText p with
  | some s => exact (strLeaf_some_inv h1).2
  | none => exact specFallback_ne p

lemma headJ_falsy {v : J} (h : pyTruthy v = false) : headJ v = .null := by
  cases v with
  | arr xs =>
    cases xs with
    | nil => rfl
    | cons x xt => simp [pyTruthy] at h
  | null => rfl
  | bool b => rfl
  | num n => rfl
  | str s => rfl
  | obj kvs => rfl

lemma idChain_spec {kvs : List (String × J)} (hid : leafStrOK (objGet (.obj kvs) "id") = true) :
    (match dictGet (.obj kvs) "id" with
     | .error e => Except.error e
     | .ok pid => if pyTruthy pid = true then Except.ok pid else Except.ok (J.str "Unknown")) =
      Except.ok (J.str (match specId (.obj kvs) with | some s => s | none => "Unknown")) := by
  simp only [objGet_obj] at hid
  simp only [dictGet_obj]
  unfold specId
  simp only [objGet_obj]
  by_cases hpt : pyTruthy ((kvs.lookup "id").getD J.null) = true
  · obtain ⟨s, hs, hne, hleaf⟩ := strLeaf_truthy hid hpt
    rw [if_pos hpt, hleaf, hs]
  · rw [if_neg hpt, strLeaf_falsy (by simpa using hpt)]

lemma fallbackName_spec {kvs : List (String × J)}
    (hd : hasKeyB (.obj kvs) "display" = false ∨ isObjB (objGet (.obj kvs) "display") = true)
    (hdn : leafStrOK (objGet (objGet (.obj kvs) "display") "name") = true)
    (hid : leafStrOK (objGet (.obj kvs) "id") = true) :
    fallbackName (.obj kvs) = .ok (.str (specFallback (.obj kvs))) := by
  have hchain := idChain_spec hid
  unfold fallbackName specFallback specDisplayName
  rcases hL : kvs.lookup "display" with _ | dv
  · simp only [objGet_obj, hL, Option.getD_none] at hdn ⊢
    simp only [dictGetD_obj, hL, Option.getD_none, dictGet_obj, List.lookup_nil,
      Option.getD_none]
    rw [if_neg (by simp [pyTruthy])]
    have : strLeaf (objGet J.null "name") = none := rfl
    rw [this]
    exact hchain
  · have hdv : isObjB dv = true := by
      rcases hd with hd | hd
      · simp [hasKeyB, hL] at hd
      · simpa [objGet, hL] using hd
    obtain ⟨dkvs, rfl⟩ := isObjB_true hdv
    simp only [objGet_obj, hL, Option.getD_some] at hdn ⊢
    simp only [dictGetD_obj, hL, Option.getD_some, dictGet_obj]
    by_cases hpt : pyTruthy ((dkvs.lookup "name").getD J.null) = true
    · obtain ⟨s, hs, hne, hleaf⟩ := strLeaf_truthy hdn hpt
      rw [if_pos hpt, hleaf, hs]
    · rw [if_neg hpt, strLeaf_falsy (by simpa using hpt)]
      exact hchain

/-- C5 core: on string-leaf well-shaped persons, `_extract_name` computes
exactly the specification's priority chain. -/
lemma extract_name_spec {p : J} (h : nameStrShaped p = true) :
    extract_name p = .ok (.str (specName p)) := by
  unfold nameStrShaped at h
  simp only [Bool.and_eq_true] at h
  obtain ⟨⟨⟨hn, hft⟩, hdn⟩, hid⟩ := h
  unfold nameShaped at hn
  simp only [Bool.and_eq_true, Bool.or_eq_true, Bool.not_eq_true'] at hn
  obtain ⟨⟨hobj, hnames⟩, hdisp⟩ := hn
  obtain ⟨kvs, rfl⟩ := isObjB_true hobj
  have hfb : fallbackName (.obj kvs) = .ok (.str (specFallback (.obj kvs))) :=
    fallbackName_spec (by
      rcases hdisp with hd | hd
      · exact Or.inl (by simpa using hd)
      · exact Or.inr hd) hdn hid
  simp only [objGet_obj] at hnames
  unfold extract_name
  simp only [dictGet_obj]
  by_cases htr : pyTruthy ((kvs.lookup "names").getD J.null) = true
  case neg =>
    have hnull : fullTextVal (.obj kvs) = .null := by
      unfold fullTextVal
      simp only [objGet_obj]
      rw [headJ_falsy (v := (kvs.lookup "names").getD J.null) (by simpa using htr)]
      rfl
    have hsn : specName (.obj kvs) = specFallback (.obj kvs) := by
      unfold specName specFullText
      rw [hnull]
      rfl
    simp [htr, hfb, hsn]
  rcases hnames with hfalsy | ⟨⟨harr, hhead⟩, hforms⟩
  · rw [htr] at hfalsy; cases hfalsy
  obtain ⟨xs, hx⟩ := isArrB_true harr
  rw [hx] at htr hhead hforms ⊢
  rcases xs with _ | ⟨x, xt⟩
  · simp [pyTruthy] at htr
  rw [if_pos htr, if_pos htr]
  simp only [headJ] at hhead hforms
  obtain ⟨xkvs, rfl⟩ := isObjB_true hhead
  simp only [index0, dictGet_obj, objGet_obj] at hforms ⊢
  have hftv : fullTextVal (.obj kvs) =
      objGet (headJ ((xkvs.lookup "nameForms").getD J.null)) "fullText" := by
    unfold fullTextVal
    simp only [objGet_obj]
    rw [hx]
    simp only [headJ, objGet_obj]
  by_cases hftr : pyTruthy ((xkvs.lookup "nameForms").getD J.null) = true
  case neg =>
    have hnull : fullTextVal (.obj kvs) = .null := by
      rw [hftv, headJ_falsy (v := (xkvs.lookup "nameForms").getD J.null) (by simpa using hftr)]
      rfl
    have hsn : specName (.obj kvs) = specFallback (.obj kvs) := by
      unfold specName specFullText
      rw [hnull]
      rfl
    simp [hftr, hfb, hsn]
  rcases hforms with hfalsy | ⟨farr, fhead⟩
  · rw [hftr] at hfalsy; cases hfalsy
  obtain ⟨fs, hf⟩ := isArrB_true farr
  rw [hf] at hftr fhead ⊢
  rcases fs with _ | ⟨f, ft⟩
  · simp [pyTruthy] at hftr
  rw [if_pos hftr, if_pos hftr]
  simp only [headJ] at fhead
  obtain ⟨fkvs, rfl⟩ := isObjB_true fhead
  simp only [index0, dictGet_obj]
  have hftv2 : fullTextVal (.obj kvs) = (fkvs.lookup "fullText").getD J.null := by
    rw [hftv, hf]
    simp only [headJ, objGet_obj]
  by_cases hful : pyTruthy ((fkvs.lookup "fullText").getD J.null) = true
  · have hftok : leafStrOK ((fkvs.lookup "fullText").getD J.null) = true := by
      rw [← hftv2]
      exact hft
    obtain ⟨s, hs, hne, hleaf⟩ := strLeaf_truthy hftok hful
    rw [if_pos hful, hs]
    have hsn : specName (.obj kvs) = s := by
      unfold specName specFullText
      rw [hftv2, hleaf]
    rw [hsn]
  · rw [if_neg hful]
    have hsn : specName (.obj kvs) = specFallback (.obj kvs) := by
      unfold specName specFullText
      rw [hftv2, strLeaf_falsy (by simpa using hful)]
    rw [hfb, hsn]

/-- C6 core, loop: on well-shaped facts the loop body computes exactly the
specification's first-match scan. -/
lemma birthScan_spec : ∀ fs : List J, fs.all factShaped = true → fs.all factTypeOK = true →
    birthScan fs = .ok (optJ (specBirthScan fs)) := by
  intro fs
  induction fs with
  | nil => intro _ _; rfl
  | cons f rest ih =>
    intro hsh hty
    simp only [List.all_cons, Bool.and_eq_true] at hsh hty
    obtain ⟨hf, hrest⟩ := hsh
    obtain ⟨hft, hrestty⟩ := hty
    unfold factShaped at hf
    simp only [Bool.and_eq_true, Bool.or_eq_true, Bool.not_eq_true'] at hf
    obtain ⟨hobj, hdate⟩ := hf
    obtain ⟨fkvs, rfl⟩ := isObjB_true hobj
    unfold factTypeOK at hft
    simp only [Bool.or_eq_true, objGet_obj, decide_eq_true_eq] at hft
    unfold birthScan specBirthScan
    simp only [dictGetD_obj, objGet_obj] at hdate ⊢
    have hcond : pyEndsWith (pyLowerS (pyStr ((fkvs.lookup "type").getD (J.str "")))) "/birth"
        = specFactMatches (.obj fkvs) := by
      unfold specFactMatches
      simp only [objGet_obj]
      cases hL : fkvs.lookup "type" with
      | none => decide
      | some tv =>
        rw [hL] at hft
        simp only [Option.getD_some] at hft ⊢
        rcases hft with hs | hnull
        · obtain ⟨s, rfl⟩ := isStrB_true hs
          rfl
        · rw [hnull]
          decide
    rw [hcond]
    by_cases hm : specFactMatches (.obj fkvs) = true
    · rw [if_pos hm, if_pos hm]
      unfold specDateOriginal
      simp only [objGet_obj, dictGet_obj]
      by_cases hdt : pyTruthy ((fkvs.lookup "date").getD J.null) = true
      · rcases hdate with hfalsy | hdobj
        · rw [hdt] at hfalsy; cases hfalsy
        obtain ⟨dkvs, hdk⟩ := isObjB_true hdobj
        rw [hdk, if_pos (by rw [← hdk]; exact hdt)]
        rfl
      · rw [if_neg hdt, objGet_falsy (by simpa using hdt)]
        rfl
    · rw [if_neg hm, if_neg hm]
      exact ih hrest hrestty

/-- C6 core: on well-shaped persons `_extract_birth` computes exactly the
specification's scan (first matching fact only, its possibly-absent
`date.original`). -/
lemma extract_birth_spec {p : J} (h : birthStrShaped p = true) :
    extract_birth p = .ok (optJ (specBirth p)) := by
  unfold birthStrShaped at h
  simp only [Bool.and_eq_true] at h
  obtain ⟨hb, hty⟩ := h
  unfold birthShaped at hb
  simp only [Bool.and_eq_true, Bool.or_eq_true, Bool.not_eq_true'] at hb
  obtain ⟨hobj, hfacts⟩ := hb
  obtain ⟨kvs, rfl⟩ := isObjB_true hobj
  simp only [objGet_obj] at hfacts hty
  unfold extract_birth specBirth
  simp only [dictGet_obj, objGet_obj]
  by_cases htr : pyTruthy ((kvs.lookup "facts").getD J.null) = true
  · rcases hfacts with hfalsy | ⟨harr, hall⟩
    · rw [htr] at hfalsy; cases hfalsy
    obtain ⟨xs, hx⟩ := isArrB_true harr
    rw [hx] at htr hty hall ⊢
    rw [if_pos htr]
    simp only [arrElems] at hall hty
    simpa [iterElems] using birthScan_spec xs hall hty
  · generalize hv : (kvs.lookup "facts").getD J.null = v at htr ⊢
    rw [if_neg htr]
    cases v with
    | arr xs =>
      cases xs with
      | nil => rfl
      | cons a t => simp [pyTruthy] at htr
    | null => rfl
    | bool b => rfl
    | num n => rfl
    | str s => rfl
    | obj kvs2 => rfl

/-! ## Claims -/

/-- `gx_type.split('/')[-1].upper() if gx_type else ""` for a string value. -/
lemma canonFromJ_str (s : String) :
    canonFromJ (.str s) = .ok (if s != "" then canonTok s else "") := by
  unfold canonFromJ
  simp only [pyTruthy_str]
  split <;> rfl

/-- The resolved-reference value `_gx_ref_to_id((res or ""))` agrees with the
specification's "strip a single leading `#`, empty when absent". -/
lemma gx_ref_spec {res : J} (h : isStrB res = true ∨ pyTruthy res = false) :
    gx_ref_to_id (if pyTruthy res = true then res else .str "") =
      .ok (.str (stripRef res)) := by
  rcases h with hs | hfalsy
  · obtain ⟨s, rfl⟩ := isStrB_true hs
    by_cases hse : s = ""
    · subst hse
      rfl
    · have htr : pyTruthy (J.str s) = true := by simp [pyTruthy, hse]
      rw [if_pos htr]
      unfold gx_ref_to_id stripRef
      dsimp only
      have hbne : (s != "" && s.startsWith "#") = s.startsWith "#" := by
        simp [hse]
      rw [hbne]
  · have hmv : stripRef res = "" := by
      cases res with
      | str s =>
        have hse : s = "" := by simpa [pyTruthy] using hfalsy
        rw [hse]
        rfl
      | null => rfl
      | bool b => rfl
      | num n => rfl
      | arr xs => rfl
      | obj kvs => rfl
    rw [hmv, if_neg (by rw [hfalsy]; exact Bool.false_ne_true)]
    rfl

/-- On a well-shaped endpoint, the code's resolution equals the
specification's `specResolve`. -/
lemma resolveEndpoint_spec2 {kvs : List (String × J)} {k : String}
    (h : endpointShaped ((kvs.lookup k).getD .null) = true) :
    resolveEndpoint (.obj kvs) k = .ok (.str (specResolve (.obj kvs) k)) := by
  unfold endpointShaped at h
  simp only [Bool.and_eq_true, Bool.or_eq_true, Bool.not_eq_true'] at h
  unfold resolveEndpoint specResolve
  simp only [dictGet_obj, objGet_obj]
  by_cases htr : pyTruthy ((kvs.lookup k).getD J.null) = true
  · rcases h with hfalsy | ⟨hobj, hres⟩
    · rw [htr] at hfalsy; cases hfalsy
    obtain ⟨pkvs, hpk⟩ := isObjB_true hobj
    rw [hpk] at htr ⊢
    rw [if_pos htr]
    simp only [dictGet_obj, objGet_obj]
    rw [hpk] at hres
    simp only [objGet_obj] at hres
    exact gx_ref_spec hres
  · rw [if_neg htr]
    simp only [dictGet_obj, List.lookup_nil, Option.getD_none]
    rw [objGet_falsy (by simpa using htr)]
    rfl

/-- The label and `gx_type` property of any edge upsert the relationships
loop issues for a record whose `type` is the string `s`. -/
lemma processRel_label_of_type {kvs : List (String × J)} {e : EdgeUp} {s : String}
    (hL : kvs.lookup "type" = some (.str s))
    (hproc : processRel (.obj kvs) = .ok (some e)) :
    e.lbl = canonLabel (if s != "" then canonTok s else "") ∧ e.gx = .str s := by
  unfold processRel at hproc
  simp only [dictGetD_obj, hL, Option.getD_some, canonFromJ_str] at hproc
  cases hr1 : resolveEndpoint (.obj kvs) "person1" with
  | error e1 => rw [hr1] at hproc; simp at hproc
  | ok src =>
    rw [hr1] at hproc
    cases hr2 : resolveEndpoint (.obj kvs) "person2" with
    | error e2 => rw [hr2] at hproc; simp at hproc
    | ok dst =>
      rw [hr2] at hproc
      dsimp only at hproc
      by_cases hskip : (!pyTruthy src || !pyTruthy dst) = true
      · rw [if_pos hskip] at hproc
        simp at hproc
      · rw [if_neg hskip] at hproc
        have he := Option.some.inj (Except.ok.inj hproc)
        rw [← he]
        exact ⟨rfl, rfl⟩

/-- C2 counterexample: `_extract_name` is not total over arbitrary partial
shapes — on the record `{"display": null}` the key is present but bound to
null, so `person.get("display", {})` returns `None` and the chained
`.get("name")` raises `AttributeError`. -/
theorem C2_counterexample :
    extract_name (.obj [("display", .null)]) = .error .attrErr := rfl

/-- C2 (amended): `_extract_name` and `_extract_birth` are pure and total on
records whose present intermediate fields have the dereferenced types —
`names[]`/`nameForms[]` lists whose first entries are objects, `facts[]` a
list of objects whose `date` is an object or falsy, and `display` an object
when the key is present.  (As stated the claim is false: a `display` key bound
to null raises, see `C2_counterexample`.) -/
theorem C2_normalizers_total (p : J)
    (h1 : nameShaped p = true) (h2 : birthShaped p = true) :
    (∃ v, extract_name p = .ok v) ∧ (∃ v, extract_birth p = .ok v) :=
  ⟨extract_name_total h1, extract_birth_total h2⟩

/-- Witness for C2: the shape hypotheses are satisfiable and the theorem
applies to a concrete record. -/
theorem C2_normalizers_total_witness :
    nameShaped (.obj [("id", .str "I1"), ("display", .obj [("name", .str "Jane")])]) = true ∧
    birthShaped (.obj [("id", .str "I1"), ("display", .obj [("name", .str "Jane")])]) = true ∧
    ((∃ v, extract_name (.obj [("id", .str "I1"), ("display", .obj [("name", .str "Jane")])]) = .ok v) ∧
     (∃ v, extract_birth (.obj [("id", .str "I1"), ("display", .obj [("name", .str "Jane")])]) = .ok v)) :=
  ⟨rfl, rfl, C2_normalizers_total _ rfl rfl⟩

/-- C3: importing the same GEDCOM X payload twice yields the same graph state
as importing it once — person upserts are keyed by `id`, relationship upserts
by `(source id, destination id, label)`, so replaying the upserts of a
successful import over its own output changes nothing, and the once-imported
store has exactly one `Person` node per distinct id. -/
theorem C3_import_idempotent (payload : J) (pops : List PersonUp) (eops : List EdgeUp)
    (h : import_gedcomx payload = .success pops eops) :
    runImport pops eops (runImport pops eops emptyGS) = runImport pops eops emptyGS ∧
    (((runImport pops eops emptyGS).persons).map PNode.id).Nodup :=
  ⟨runImport_idem pops eops, runImport_nodup pops eops⟩

set_option maxRecDepth 10000 in
/-- Witness for C3 at a concrete one-person, one-couple payload. -/
theorem C3_import_idempotent_witness :
    runImport [⟨.str "I1", .str "I1", .null⟩] [⟨.str "I1", .str "I1", "COUPLE", .str "x/Couple"⟩]
        (runImport [⟨.str "I1", .str "I1", .null⟩]
          [⟨.str "I1", .str "I1", "COUPLE", .str "x/Couple"⟩] emptyGS) =
      runImport [⟨.str "I1", .str "I1", .null⟩]
        [⟨.str "I1", .str "I1", "COUPLE", .str "x/Couple"⟩] emptyGS ∧
    (((runImport [⟨.str "I1", .str "I1", .null⟩]
        [⟨.str "I1", .str "I1", "COUPLE", .str "x/Couple"⟩] emptyGS).persons).map PNode.id).Nodup :=
  C3_import_idempotent
    (.obj [("persons", .arr [.obj [("id", .str "I1")]]),
           ("relationships", .arr [.obj [("type", .str "x/Couple"),
             ("person1", .obj [("resource", .str "#I1")]),
             ("person2", .obj [("resource", .str "#I1")])]])])
    [⟨.str "I1", .str "I1", .null⟩] [⟨.str "I1", .str "I1", "COUPLE", .str "x/Couple"⟩]
    (by with_unfolding_all rfl)

/-- C7: the import raises HTTP 400 (`BadRequest`) exactly when the payload is
not a JSON object; in the model the `badRequest` outcome is produced before
the store model is consulted and carries no upserts, and an object payload
never produces it. -/
theorem C7_bad_request_iff (payload : J) :
    (isObjB payload = false → import_gedcomx payload = .badRequest) ∧
    (isObjB payload = true → import_gedcomx payload ≠ .badRequest) := by
  constructor
  · intro h
    cases payload with
    | obj kvs => simp [isObjB] at h
    | null => rfl
    | bool b => rfl
    | num n => rfl
    | str s => rfl
    | arr xs => rfl
  · intro h
    obtain ⟨kvs, rfl⟩ := isObjB_true h
    exact importBody_ne_badRequest _

/-- Witness for C7: a non-object payload is rejected, an object payload is
not. -/
theorem C7_bad_request_iff_witness :
    import_gedcomx (.str "invalid") = .badRequest ∧
    import_gedcomx (.obj []) ≠ .badRequest :=
  ⟨(C7_bad_request_iff (.str "invalid")).1 rfl, (C7_bad_request_iff (.obj [])).2 rfl⟩

/-- C9: a persons entry with no `id` key is skipped silently — its loop body
issues no upsert and returns normally, and a well-shaped import still
succeeds. -/
theorem C9_skip_person_without_id (payload : J) (hshape : payloadShaped payload = true) :
    (∃ pops eops, import_gedcomx payload = .success pops eops) ∧
    (∀ p ∈ arrElems (objGet payload "persons"),
      hasKeyB p "id" = false → processPerson p = .ok none) := by
  refine ⟨import_success hshape, ?_⟩
  intro p hp hnoid
  have hshaped := payload_persons_shaped hshape p hp
  have hobj : isObjB p = true := by
    unfold personEntryShaped at hshaped
    exact (Bool.and_eq_true _ _ |>.mp hshaped).1
  obtain ⟨kvs, rfl⟩ := isObjB_true hobj
  apply processPerson_falsy_id hobj
  simp only [objGet_obj, hasKeyB_false_lookup hnoid]
  rfl

/-- Witness for C9 at a payload whose single person entry lacks `id`. -/
theorem C9_skip_person_without_id_witness :
    (∃ pops eops,
      import_gedcomx (.obj [("persons", .arr [.obj [("display", .obj [("name", .str "No ID")])]])]) =
        .success pops eops) ∧
    (∀ p ∈ arrElems (objGet (.obj [("persons",
        .arr [.obj [("display", .obj [("name", .str "No ID")])]])]) "persons"),
      hasKeyB p "id" = false → processPerson p = .ok none) :=
  C9_skip_person_without_id _ rfl

/-- C10: a persons entry whose `id` key is present but bound to a falsy value
(empty string, null, 0, false) is treated exactly like an absent id: the skip
test is Python truthiness, not key presence, the entry issues no upsert, and a
well-shaped import still succeeds. -/
theorem C10_skip_person_falsy_id (payload : J) (hshape : payloadShaped payload = true) :
    (∃ pops eops, import_gedcomx payload = .success pops eops) ∧
    (∀ p ∈ arrElems (objGet payload "persons"),
      hasKeyB p "id" = true → pyTruthy (objGet p "id") = false → processPerson p = .ok none) := by
  refine ⟨import_success hshape, ?_⟩
  intro p hp _ hfalsy
  have hshaped := payload_persons_shaped hshape p hp
  have hobj : isObjB p = true := by
    unfold personEntryShaped at hshaped
    exact (Bool.and_eq_true _ _ |>.mp hshaped).1
  exact processPerson_falsy_id hobj hfalsy

/-- Witness for C10 at a payload with present-but-falsy ids: `""`, `null`,
`0` and `false` are all skipped. -/
theorem C10_skip_person_falsy_id_witness :
    (∃ pops eops,
      import_gedcomx (.obj [("persons", .arr [.obj [("id", .str "")], .obj [("id", .null)],
        .obj [("id", .num 0)], .obj [("id", .bool false)]])]) = .success pops eops) ∧
    (∀ p ∈ arrElems (objGet (.obj [("persons", .arr [.obj [("id", .str "")], .obj [("id", .null)],
        .obj [("id", .num 0)], .obj [("id", .bool false)]])]) "persons"),
      hasKeyB p "id" = true → pyTruthy (objGet p "id") = false → processPerson p = .ok none) :=
  C10_skip_person_falsy_id _ rfl

/-- C1 counterexample: Python's `isalnum`/`isidentifier` are Unicode-aware, so
the type string `"É"` canonicalizes to the label `"É"`, which is non-empty and
a valid Python identifier but does **not** match the ASCII token grammar
`[A-Za-z_][A-Za-z0-9_]*` the claim asserts. -/
theorem C1_counterexample :
    canonicalize "É" = "É" ∧ matchesTokenGrammar (canonicalize "É") = false := by
  have h1 : canonicalize "É" = "É" := by with_unfolding_all rfl
  exact ⟨h1, by rw [h1]; decide⟩

/-- C1 (amended): for **every** input string the canonicalized label is
non-empty and a valid Python identifier, and for every input string made of
ASCII characters it additionally matches the ASCII token grammar
`[A-Za-z_][A-Za-z0-9_]*`.  (As stated over all strings the ASCII-grammar part
is false: non-ASCII alphanumerics such as `"É"` survive sanitization, see
`C1_counterexample`.) -/
theorem C1_canonicalize_token_grammar (gx_type : String) :
    pyIsIdentifier (canonicalize gx_type) = true ∧
    canonicalize gx_type ≠ "" ∧
    (asciiStr gx_type = true → matchesTokenGrammar (canonicalize gx_type) = true) := by
  refine ⟨canonicalize_ident gx_type, ?_, ?_⟩
  · intro he
    have hg := canonicalize_ident gx_type
    rw [he] at hg
    exact absurd hg (by decide)
  · intro h
    exact grammar_of_ident_ascii (canonicalize_ascii h) (canonicalize_ident gx_type)

/-- Witness for C1: the universal clauses hold at the non-ASCII input `"É"`
itself, and the ASCII-grammar clause is discharged at the canonical couple
URI and at a hostile ASCII type string. -/
theorem C1_canonicalize_token_grammar_witness :
    (pyIsIdentifier (canonicalize "É") = true ∧ canonicalize "É" ≠ "") ∧
    (asciiStr "http://gedcomx.org/Couple" = true ∧
      pyIsIdentifier (canonicalize "http://gedcomx.org/Couple") = true ∧
      canonicalize "http://gedcomx.org/Couple" ≠ "" ∧
      matchesTokenGrammar (canonicalize "http://gedcomx.org/Couple") = true) ∧
    (asciiStr "a/9) DETACH DELETE n --" = true ∧
      pyIsIdentifier (canonicalize "a/9) DETACH DELETE n --") = true ∧
      canonicalize "a/9) DETACH DELETE n --" ≠ "" ∧
      matchesTokenGrammar (canonicalize "a/9) DETACH DELETE n --") = true) :=
  ⟨⟨(C1_canonicalize_token_grammar "É").1, (C1_canonicalize_token_grammar "É").2.1⟩,
   ⟨by decide, (C1_canonicalize_token_grammar "http://gedcomx.org/Couple").1,
    (C1_canonicalize_token_grammar "http://gedcomx.org/Couple").2.1,
    (C1_canonicalize_token_grammar "http://gedcomx.org/Couple").2.2 (by decide)⟩,
   ⟨by decide, (C1_canonicalize_token_grammar "a/9) DETACH DELETE n --").1,
    (C1_canonicalize_token_grammar "a/9) DETACH DELETE n --").2.1,
    (C1_canonicalize_token_grammar "a/9) DETACH DELETE n --").2.2 (by decide)⟩⟩

/-- C4: the stored edge label is computed from the last `/`-separated segment
of the type string, upper-cased: token `COUPLE` stores exactly `COUPLE`, and
tokens `PARENTCHILD` or `PARENT_CHILD` store exactly `PARENT_CHILD`,
regardless of the casing or URI form of the input type. -/
theorem C4_canonical_labels (kvs : List (String × J)) (s : String) (e : EdgeUp)
    (hL : kvs.lookup "type" = some (.str s))
    (hproc : processRel (.obj kvs) = .ok (some e)) :
    (canonTok s = "COUPLE" → e.lbl = "COUPLE") ∧
    ((canonTok s = "PARENTCHILD" ∨ canonTok s = "PARENT_CHILD") → e.lbl = "PARENT_CHILD") := by
  obtain ⟨hlbl, -⟩ := processRel_label_of_type hL hproc
  have hne : ∀ t : String, canonTok s = t → t ≠ "" → e.lbl = canonLabel (canonTok s) := by
    intro t hts htne
    rw [hlbl]
    have hs : s ≠ "" := by
      intro hse
      rw [hse] at hts
      exact htne (hts.symm.trans (by decide))
    rw [if_pos (by simp [hs])]
  constructor
  · intro hc
    rw [hne "COUPLE" hc (by decide), hc]
    decide
  · rintro (hc | hc)
    · rw [hne "PARENTCHILD" hc (by decide), hc]
      decide
    · rw [hne "PARENT_CHILD" hc (by decide), hc]
      decide

/-- Witness for C4: a lower-cased couple URI stores `COUPLE`, a ParentChild
URI stores `PARENT_CHILD`. -/
theorem C4_canonical_labels_witness :
    (EdgeUp.mk (.str "I1") (.str "I2") "COUPLE" (.str "http://gedcomx.org/couple")).lbl
        = "COUPLE" ∧
    (EdgeUp.mk (.str "I1") (.str "I2") "PARENT_CHILD" (.str "http://gedcomx.org/ParentChild")).lbl
        = "PARENT_CHILD" :=
  ⟨(C4_canonical_labels
      [("type", .str "http://gedcomx.org/couple"),
       ("person1", .obj [("resource", .str "#I1")]),
       ("person2", .obj [("resource", .str "#I2")])] _ _
      (by with_unfolding_all rfl) (by with_unfolding_all rfl)).1
      (by with_unfolding_all rfl),
   (C4_canonical_labels
      [("type", .str "http://gedcomx.org/ParentChild"),
       ("person1", .obj [("resource", .str "#I1")]),
       ("person2", .obj [("resource", .str "#I2")])] _ _
      (by with_unfolding_all rfl) (by with_unfolding_all rfl)).2
      (Or.inl (by with_unfolding_all rfl))⟩

/-- C8: a relationship record either of whose endpoint references is absent or
resolves (after stripping a single leading `#`) to the empty string issues no
edge upsert, and the import of a well-shaped payload still succeeds. -/
theorem C8_skip_unresolved_endpoints (payload : J) (h : payloadShaped payload = true) :
    (∃ pops eops, import_gedcomx payload = .success pops eops) ∧
    (∀ r ∈ arrElems (objGet payload "relationships"),
      unresolvedRel r = true → processRel r = .ok none) := by
  refine ⟨import_success h, ?_⟩
  intro r hr hu
  have hshape := payload_rels_shaped h r hr
  unfold relEntryShaped at hshape
  simp only [Bool.and_eq_true] at hshape
  obtain ⟨⟨⟨hobj, htype⟩, hp1⟩, hp2⟩ := hshape
  obtain ⟨kvs, rfl⟩ := isObjB_true hobj
  unfold processRel
  simp only [dictGetD_obj]
  have htv : isStrB ((kvs.lookup "type").getD (J.str "")) = true ∨
      pyTruthy ((kvs.lookup "type").getD (J.str "")) = false := by
    cases hLt : kvs.lookup "type" with
    | none => exact Or.inl (by simp [isStrB])
    | some v =>
      simp only [objGet_obj, hLt, Option.getD_some] at htype
      simpa using htype
  obtain ⟨t, ht⟩ := canonFromJ_total htv
  have h1 := @resolveEndpoint_spec2 kvs "person1"
    (by simpa only [objGet_obj] using hp1)
  have h2 := @resolveEndpoint_spec2 kvs "person2"
    (by simpa only [objGet_obj] using hp2)
  simp only [ht, h1, h2]
  unfold unresolvedRel at hu
  simp only [Bool.or_eq_true, decide_eq_true_eq] at hu
  have hcond : (!pyTruthy (J.str (specResolve (.obj kvs) "person1")) ||
      !pyTruthy (J.str (specResolve (.obj kvs) "person2"))) = true := by
    rcases hu with hu | hu <;> simp [pyTruthy, hu]
  rw [if_pos hcond]

/-- Witness for C8: a couple record whose `person1.resource` is the bare `"#"`
(resolving to `""`) and whose partner is fine is skipped, and the import still
succeeds. -/
theorem C8_skip_unresolved_endpoints_witness :
    (∃ pops eops,
      import_gedcomx (.obj [("persons", .arr [.obj [("id", .str "I2")]]),
        ("relationships", .arr [.obj [("type", .str "x/Couple"),
          ("person1", .obj [("resource", .str "#")]),
          ("person2", .obj [("resource", .str "#I2")])]])]) = .success pops eops) ∧
    (∀ r ∈ arrElems (objGet (.obj [("persons", .arr [.obj [("id", .str "I2")]]),
        ("relationships", .arr [.obj [("type", .str "x/Couple"),
          ("person1", .obj [("resource", .str "#")]),
          ("person2", .obj [("resource", .str "#I2")])]])]) "relationships"),
      unresolvedRel r = true → processRel r = .ok none) :=
  C8_skip_unresolved_endpoints _ (by with_unfolding_all rfl)

/-- C5: `_extract_name` returns, first match wins: the `fullText` of the first
nameForm of the first `names[]` entry if present and non-empty; else
`display.name` if present and non-empty; else the person's own `id` if present
and non-empty; else the literal `"Unknown"` — and the result is never the
empty string. -/
theorem C5_name_priority (p : J) (h : nameStrShaped p = true) :
    extract_name p = .ok (.str (specName p)) ∧ specName p ≠ "" :=
  ⟨extract_name_spec h, specName_ne p⟩

/-- Witness for C5 at a record carrying all three name sources (the priority
chain picks the `fullText`). -/
theorem C5_name_priority_witness :
    nameStrShaped (.obj [("names", .arr [.obj [("nameForms",
        .arr [.obj [("fullText", .str "Alice B")]])]]),
      ("display", .obj [("name", .str "Disp")]), ("id", .str "I1")]) = true ∧
    specName (.obj [("names", .arr [.obj [("nameForms",
        .arr [.obj [("fullText", .str "Alice B")]])]]),
      ("display", .obj [("name", .str "Disp")]), ("id", .str "I1")]) = "Alice B" ∧
    (extract_name (.obj [("names", .arr [.obj [("nameForms",
        .arr [.obj [("fullText", .str "Alice B")]])]]),
      ("display", .obj [("name", .str "Disp")]), ("id", .str "I1")]) =
        .ok (.str (specName (.obj [("names", .arr [.obj [("nameForms",
          .arr [.obj [("fullText", .str "Alice B")]])]]),
        ("display", .obj [("name", .str "Disp")]), ("id", .str "I1")]))) ∧
      specName (.obj [("names", .arr [.obj [("nameForms",
          .arr [.obj [("fullText", .str "Alice B")]])]]),
        ("display", .obj [("name", .str "Disp")]), ("id", .str "I1")]) ≠ "") :=
  ⟨by with_unfolding_all rfl, by with_unfolding_all rfl,
   C5_name_priority _ (by with_unfolding_all rfl)⟩

/-- C6: `_extract_birth` scans `facts[]` in input order, selects the first
fact whose `type`, compared case-insensitively, ends with `"/birth"`, and
returns that fact's `date.original` (absent if that field is absent, without
scanning further facts); absent when no fact matches. -/
theorem C6_birth_first_match (p : J) (h : birthStrShaped p = true) :
    extract_birth p = .ok (optJ (specBirth p)) :=
  extract_birth_spec h

/-- Witness for C6: the first matching fact (uppercase `/BIRTH` type, no
date) wins over a later fact that has a date, so the result is absent. -/
theorem C6_birth_first_match_witness :
    birthStrShaped (.obj [("facts", .arr [.obj [("type", .str "x/Death")],
      .obj [("type", .str "GX/BIRTH")],
      .obj [("type", .str "x/birth"),
        ("date", .obj [("original", .str "1900")])]])]) = true ∧
    specBirth (.obj [("facts", .arr [.obj [("type", .str "x/Death")],
      .obj [("type", .str "GX/BIRTH")],
      .obj [("type", .str "x/birth"),
        ("date", .obj [("original", .str "1900")])]])]) = some .null ∧
    extract_birth (.obj [("facts", .arr [.obj [("type", .str "x/Death")],
      .obj [("type", .str "GX/BIRTH")],
      .obj [("type", .str "x/birth"),
        ("date", .obj [("original", .str "1900")])]])]) =
      .ok (optJ (specBirth (.obj [("facts", .arr [.obj [("type", .str "x/Death")],
        .obj [("type", .str "GX/BIRTH")],
        .obj [("type", .str "x/birth"),
          ("date", .obj [("original", .str "1900")])]])]))) :=
  ⟨by with_unfolding_all rfl, by with_unfolding_all rfl,
   C6_birth_first_match _ (by with_unfolding_all rfl)⟩

end FamilyTree
